import Mathlib

/-!
# mGBA frontend for the ODROID-GO Advance: persistence, input, frame pacing, audio pump

A shallow embedding of `src/odroid/main.c`.  The C functions become Lean functions over an
explicit world (file system, engine session, log of engine and device calls); the
non-determinism of libc (`fopen`, `malloc`, `fread`, `fwrite`, `fclose`) is an explicit
oracle.
-/

namespace Odroid

/-! ## Data model -/

/-- One byte of a file or of a memory block. -/
abbrev Byte := Fin 256

/-- A C string (no interior NUL), as the list of its characters. -/
abbrev CStr := List Char

/-- The file system: the contents of the file at each path, `none` when there is no file. -/
abbrev FileSystem := CStr → Option (List Byte)

/-- Result of `core->platform(core)`. -/
inductive Platform
  | GBA
  | GB
  deriving DecidableEq, Repr

/-- Calls made by the main thread to the engine, the frame gate, the input device and the
presentation pipeline, in program order. -/
inductive Event
  | threadStart
  | audioTaskCreate
  | interrupt
  | continue_
  | threadEnd
  | loadStateNamed (blob : List Byte)
  | platform
  | savedataRestore (blob : List Byte) (size : Nat) (writeback : Bool)
  | gamepadRead
  | setKeys (keys : Nat)
  | waitFrameStart (ready : Bool)
  | waitFrameEnd
  | glClear
  | texSubImage (width height : Nat)
  | cropRect (cx cy cw ch : Int)
  | drawTex (x y z w h : Int)
  | swapBuffers
  | surfaceLock
  | presenterPost
  | surfaceUnlock
  | usleep
  deriving DecidableEq, Repr

/-- The engine operations the persistence code calls, over an engine session of type `σ`.
The engine is an external collaborator, so its operations are parameters. -/
structure CoreOps (σ : Type) where
  /-- The call `mCoreLoadStateNamed(core, vfm, SAVESTATE_RTC)` on a memory file holding `blob`. -/
  loadStateNamed : σ → List Byte → σ
  /-- The call `core->savedataRestore(core, sram, size, writeback)`. -/
  savedataRestore : σ → List Byte → Nat → Bool → σ
  /-- The call `core->platform(core)`. -/
  platform : σ → Platform

/-- The world a persistence function runs in. -/
structure World (σ : Type) where
  fs : FileSystem
  core : σ
  log : List Event

/-- Choices of the C library that the program cannot control. -/
structure Libc where
  /-- Whether `fopen(path, "rb")` succeeds on a file that exists. -/
  fopenRead : Bool
  /-- Whether `fopen(path, "wb")` succeeds. -/
  fopenWrite : Bool
  /-- Whether `malloc(size)` returns a non-null pointer. -/
  mallocOk : Nat → Bool
  /-- How many bytes `fread` delivers when `size` are requested (capped at `size`). -/
  freadCount : Nat → Nat
  /-- The value `fwrite` returns when `size` bytes are given (capped at `size`): the bytes
  the stream accepted, into its buffer or into the file. -/
  fwriteCount : Nat → Nat
  /-- Of the `count` bytes `fwrite` accepted, how many it put in the file itself (capped at
  `count`); the others stay in the buffer of the stream. -/
  fwriteThrough : Nat → Nat
  /-- Of the `pending` bytes in the buffer, how many the flush inside `fclose` puts in the
  file (capped at `pending`); fewer than `pending` when that write fails. -/
  fcloseFlushed : Nat → Nat

/-- How a C function ends: it returns a value, or the process is killed by `abort()`. -/
inductive Outcome (α : Type) (σ : Type)
  | ret (value : α) (world : World σ)
  | abort (world : World σ)

/-- The file system after the file at `path` has been given the contents `bytes`. -/
def FileSystem.write (fs : FileSystem) (path : CStr) (bytes : List Byte) : FileSystem :=
  fun p => if p = path then some bytes else fs p

/-- The stream `fopen(path, "rb")` returns: the file's contents, `none` for a null stream. -/
def fopenRb (libc : Libc) (fs : FileSystem) (path : CStr) : Option (List Byte) :=
  if libc.fopenRead then fs path else none

/-! ## Persistence (`LoadState`, `LoadSram`, `SaveSram`) -/

/-- The function `LoadState` of main.c, lines 173-204. -/
def LoadState {σ : Type} (ops : CoreOps σ) (libc : Libc) (saveName : CStr) (w : World σ) :
    Outcome Int σ :=
  match fopenRb libc w.fs saveName with
  | none => .ret (-1) w
  | some content =>
    let size := content.length
    if size < 1 then .ret (-1) w
    else if !libc.mallocOk size then .abort w
    else
      let count := min (libc.freadCount size) size
      if size ≠ count then .abort w
      else
        .ret 0 { w with
          core := ops.loadStateNamed w.core (content.take count)
          log := w.log ++ [Event.loadStateNamed (content.take count)] }

/-- The function `LoadSram` of main.c, lines 206-237. -/
def LoadSram {σ : Type} (ops : CoreOps σ) (libc : Libc) (sramName : CStr) (w : World σ) :
    Outcome Int σ :=
  match fopenRb libc w.fs sramName with
  | none => .ret (-1) w
  | some content =>
    let size := content.length
    if !libc.mallocOk size then .abort w
    else
      let count := min (libc.freadCount size) size
      if count ≠ size then .abort w
      else
        let writeback := decide (ops.platform w.core = Platform.GB)
        .ret 0 { w with
          core := ops.savedataRestore w.core (content.take count) size writeback
          log := w.log ++ [Event.platform,
                           Event.savedataRestore (content.take count) size writeback] }

/-- Of `count` bytes accepted by `fwrite`, the bytes it put in the file itself. -/
def Libc.through (libc : Libc) (count : Nat) : Nat :=
  min (libc.fwriteThrough count) count

/-- Of `count` bytes accepted by `fwrite`, the bytes in the file once `fclose` has returned:
those written through, and those of the buffered rest that the flush stored. -/
def Libc.afterClose (libc : Libc) (count : Nat) : Nat :=
  libc.through count +
    min (libc.fcloseFlushed (count - libc.through count)) (count - libc.through count)

/-- The function `SaveSram` of main.c, lines 269-284: `sram` is the memory block the pointer
addresses, of which the first `sramSize` bytes are given to `fwrite`.  `fopen(.., "wb")`
empties the file; `fwrite` returns the bytes the stream accepted, which is all the code
tests; `abort()` leaves in the file what `fwrite` wrote through; `fclose` flushes the rest
and its result is ignored (line 283). -/
def SaveSram {σ : Type} (libc : Libc) (sramName : CStr) (sram : List Byte) (sramSize : Nat)
    (w : World σ) : Outcome Unit σ :=
  if !libc.fopenWrite then .abort w
  else
    let count := min (libc.fwriteCount sramSize) sramSize
    if count ≠ sramSize then
      .abort { w with fs := w.fs.write sramName (sram.take (libc.through count)) }
    else
      .ret () { w with fs := w.fs.write sramName (sram.take (libc.afterClose count)) }

/-! ## Path derivation (`FileNameFromPath`, `PathCombine`, lines 557-578 of `main`) -/

/-- The C library function `strrchr(s, c)` for `c` other than NUL: the suffix of `s` that starts
at the last occurrence of `c` (the pointer it returns), `none` for a null pointer. -/
def strrchr : CStr → Char → Option CStr
  | [], _ => none
  | x :: xs, c =>
    match strrchr xs c with
    | some r => some r
    | none => if x = c then some (x :: xs) else none

/-- The function `FileNameFromPath` of main.c, lines 132-146. -/
def FileNameFromPath (fullpath : CStr) : CStr :=
  match strrchr fullpath '/' with
  | none => fullpath
  | some ptr => ptr.tail

/-- The function `PathCombine` of main.c, lines 148-171.  With an empty `path` the test reads
`path[-1]`, outside the string: there is no result (`none`). -/
def PathCombine (path filename : CStr) : Option CStr :=
  match path.getLast? with
  | none => none
  | some last =>
    if last ≠ '/' then some (path ++ "/".toList ++ filename)
    else some (path ++ filename)

/-- Lines 558-562 of `main`: `saveName` is the base file name followed by `.sav`. -/
def saveNameOf (filename : CStr) : CStr :=
  FileNameFromPath filename ++ ".sav".toList

/-- Lines 558 and 573-575 of `main`: `sramName` is the base file name followed by `.srm`. -/
def sramNameOf (filename : CStr) : CStr :=
  FileNameFromPath filename ++ ".srm".toList

/-- Line 568 of `main`: `savePath = PathCombine(homedir, saveName)`. -/
def savePathOf (homedir filename : CStr) : Option CStr :=
  PathCombine homedir (saveNameOf filename)

/-- Line 577 of `main`: `sramPath = PathCombine(homedir, sramName)`. -/
def sramPathOf (homedir filename : CStr) : Option CStr :=
  PathCombine homedir (sramNameOf filename)

/-! ## Input (`go2_gamepad_state_t`, lines 602-619 of `main`) -/

/-- An IEEE 754 binary32 value (`float`): a NaN, an infinity, or the finite value
`(-1)^negative * mant * 2^exp`. -/
inductive F32
  | nan
  | inf (negative : Bool)
  | fin (negative : Bool) (mant : Nat) (exp : Int)
  deriving DecidableEq, Repr

/-- The rational value of a finite binary32 with the given sign, significand and exponent. -/
def F32.value (negative : Bool) (mant : Nat) (exp : Int) : ℚ :=
  (if negative then -1 else 1) * (mant : ℚ) * (2 : ℚ) ^ exp

/-- A binary32 has a significand of 24 bits and an exponent between -149 and 104. -/
def F32.wf : F32 → Prop
  | .fin _ mant exp => mant < 2 ^ 24 ∧ -149 ≤ exp ∧ exp ≤ 104
  | _ => True

/-- The C comparison `a < b` on floats: false whenever an operand is a NaN. -/
def F32.lt : F32 → F32 → Bool
  | .nan, _ => false
  | _, .nan => false
  | .inf a, .inf b => a && !b
  | .inf a, .fin _ _ _ => a
  | .fin _ _ _, .inf b => !b
  | .fin n m e, .fin n2 m2 e2 => decide (F32.value n m e < F32.value n2 m2 e2)

/-- The C comparison `a > b` on floats. -/
def F32.gt (a b : F32) : Bool := F32.lt b a

/-- Unary minus on floats (exact: it flips the sign). -/
def F32.neg : F32 → F32
  | .nan => .nan
  | .inf a => .inf (!a)
  | .fin n m e => .fin (!n) m e

/-- The float exceeds the rational `q` (never for a NaN). -/
def F32.above (a : F32) (q : ℚ) : Prop :=
  match a with
  | .nan => False
  | .inf negative => negative = false
  | .fin n m e => q < F32.value n m e

/-- The float is below the rational `q` (never for a NaN). -/
def F32.below (a : F32) (q : ℚ) : Prop :=
  match a with
  | .nan => False
  | .inf negative => negative = true
  | .fin n m e => F32.value n m e < q

/-- The constant `0.35f`: the binary32 nearest to 0.35, `11744051 * 2^-25` (bits 0x3EB33333). -/
def TRIM : F32 := .fin false 11744051 (-25)

/-- The fields of `go2_gamepad_buttons_t` that `main` reads (a `go2_button_state_t` each:
0 released, 1 pressed). -/
structure Buttons where
  a : Nat
  b : Nat
  top_left : Nat
  top_right : Nat
  f1 : Nat
  f3 : Nat
  f4 : Nat

/-- The type `go2_dpad_t`. -/
structure Dpad where
  up : Nat
  down : Nat
  left : Nat
  right : Nat

/-- The type `go2_thumb_t`. -/
structure Thumb where
  x : F32
  y : F32

/-- The type `go2_gamepad_state_t`. -/
structure GamepadState where
  thumb : Thumb
  dpad : Dpad
  buttons : Buttons

/-- The statement `keys |= v` on the `uint32_t keys`. -/
def orAssign (keys v : Nat) : Nat := (keys ||| v) % 2 ^ 32

/-- Lines 602-619 of `main`: the key mask computed from the gamepad state. -/
def keyMask (gamepad : GamepadState) : Nat :=
  let keys := 0
  let keys := orAssign keys (gamepad.buttons.a <<< 0)
  let keys := orAssign keys (gamepad.buttons.b <<< 1)
  let keys := orAssign keys (gamepad.buttons.f3 <<< 2)
  let keys := orAssign keys (gamepad.buttons.f4 <<< 3)
  let keys := orAssign keys (gamepad.dpad.right <<< 4)
  let keys := orAssign keys (gamepad.dpad.left <<< 5)
  let keys := orAssign keys (gamepad.dpad.up <<< 6)
  let keys := orAssign keys (gamepad.dpad.down <<< 7)
  let keys := orAssign keys (gamepad.buttons.top_right <<< 8)
  let keys := orAssign keys (gamepad.buttons.top_left <<< 9)
  let keys := orAssign keys (if F32.lt gamepad.thumb.x (F32.neg TRIM) then 1 <<< 5 else 0)
  let keys := orAssign keys (if F32.gt gamepad.thumb.x TRIM then 1 <<< 4 else 0)
  let keys := orAssign keys (if F32.lt gamepad.thumb.y (F32.neg TRIM) then 1 <<< 6 else 0)
  let keys := orAssign keys (if F32.gt gamepad.thumb.y TRIM then 1 <<< 7 else 0)
  keys

/-- Every button and d-pad field the mask reads is 0 (released) or 1 (pressed), and the
stick axes are binary32 values. -/
def GamepadState.valid (g : GamepadState) : Prop :=
  g.buttons.a ≤ 1 ∧ g.buttons.b ≤ 1 ∧ g.buttons.f3 ≤ 1 ∧ g.buttons.f4 ≤ 1 ∧
  g.buttons.top_right ≤ 1 ∧ g.buttons.top_left ≤ 1 ∧
  g.dpad.right ≤ 1 ∧ g.dpad.left ≤ 1 ∧ g.dpad.up ≤ 1 ∧ g.dpad.down ≤ 1 ∧
  g.thumb.x.wf ∧ g.thumb.y.wf

/-- Right is asserted: the d-pad field is pressed or the stick is beyond 0.35 on x. -/
def GamepadState.assertsRight (g : GamepadState) : Prop :=
  g.dpad.right = 1 ∨ g.thumb.x.above (7 / 20)

/-- Left is asserted: the d-pad field is pressed or the stick is below -0.35 on x. -/
def GamepadState.assertsLeft (g : GamepadState) : Prop :=
  g.dpad.left = 1 ∨ g.thumb.x.below (-(7 / 20))

/-- Up is asserted: the d-pad field is pressed or the stick is below -0.35 on y. -/
def GamepadState.assertsUp (g : GamepadState) : Prop :=
  g.dpad.up = 1 ∨ g.thumb.y.below (-(7 / 20))

/-- Down is asserted: the d-pad field is pressed or the stick is beyond 0.35 on y. -/
def GamepadState.assertsDown (g : GamepadState) : Prop :=
  g.dpad.down = 1 ∨ g.thumb.y.above (7 / 20)

/-- A gamepad state with the A button held, the d-pad pressed right and the stick pushed
to x = 0.5, y = -0.75. -/
def sampleGamepad : GamepadState :=
  { thumb := { x := .fin false 1 (-1), y := .fin true 3 (-2) }
    dpad := { up := 0, down := 0, left := 0, right := 1 }
    buttons := { a := 1, b := 0, top_left := 0, top_right := 0, f1 := 0, f3 := 0, f4 := 0 } }

/-- A gamepad state with only F1 held: the combination that ends the render loop. -/
def quitGamepad : GamepadState :=
  { thumb := { x := .fin false 0 0, y := .fin false 0 0 }
    dpad := { up := 0, down := 0, left := 0, right := 0 }
    buttons := { a := 0, b := 0, top_left := 0, top_right := 0, f1 := 1, f3 := 0, f4 := 0 } }

/-! ## Display geometry (lines 644-692 of `main`) -/

/-- The type `emu_device_t`. -/
inductive emu_device_t
  | GO2_DEVICE_UNKNOWN
  | GO2_DEVICE_GB
  | GO2_DEVICE_SGB
  | GO2_DEVICE_GBC
  | GO2_DEVICE_GBA
  deriving DecidableEq, Repr

/-- The conversion of a 32-bit `unsigned` value to `GLint` (two's complement). -/
def toGLint (n : Nat) : Int :=
  if n % 2 ^ 32 < 2 ^ 31 then (n % 2 ^ 32 : Nat) else (n % 2 ^ 32 : Nat) - 2 ^ 32

/-- The expression `-height` on the `unsigned height`: negation modulo 2^32. -/
def negUnsigned (n : Nat) : Nat := (2 ^ 32 - n % 2 ^ 32) % 2 ^ 32

/-- The array `params` that the `switch` passes as `GL_TEXTURE_CROP_RECT_OES`. -/
structure CropRect where
  cx : Int
  cy : Int
  cw : Int
  ch : Int
  deriving DecidableEq, Repr

/-- The arguments `x, y, z, width, height` of the `glDrawTexiOES` call. -/
structure DestRect where
  x : Int
  y : Int
  z : Int
  w : Int
  h : Int
  deriving DecidableEq, Repr

/-- The `params` array each case of the `switch (emuDevice)` fills in; `none` in the
`default` case, which sets nothing. -/
def cropParams (emuDevice : emu_device_t) (width height : Nat) : Option CropRect :=
  match emuDevice with
  | .GO2_DEVICE_GB | .GO2_DEVICE_GBC => some ⟨0, 144, 160, -144⟩
  | .GO2_DEVICE_SGB => some ⟨(256 - 240) / 2, 160 + ((224 - 160) / 2), 240, -160⟩
  | .GO2_DEVICE_GBA => some ⟨0, 0, toGLint width, toGLint (negUnsigned height)⟩
  | .GO2_DEVICE_UNKNOWN => none

/-- The arguments of `_glDrawTexiOES` in each case of the `switch (emuDevice)`; `none` in the
`default` case, which draws nothing. -/
def drawParams (emuDevice : emu_device_t) : Option DestRect :=
  match emuDevice with
  | .GO2_DEVICE_GB | .GO2_DEVICE_GBC => some ⟨(480 - 320) / 2, (320 - 288) / 2, 0, 320, 288⟩
  | .GO2_DEVICE_SGB => some ⟨0, 0, 0, 480, 320⟩
  | .GO2_DEVICE_GBA => some ⟨0, 0, 0, 480, 320⟩
  | .GO2_DEVICE_UNKNOWN => none

/-- The size of the engine frame (the texture) for a device: 256x224 for the Game Boy
family, as the comments at lines 650 and 665 record, `width` x `height` for the GBA. -/
def frameSize (emuDevice : emu_device_t) (width height : Nat) : Int × Int :=
  match emuDevice with
  | .GO2_DEVICE_GBA => (width, height)
  | _ => (256, 224)

/-- The calls of the `switch (emuDevice)` at lines 646-692. -/
def drawEvents (emuDevice : emu_device_t) (width height : Nat) : List Event :=
  match cropParams emuDevice width height, drawParams emuDevice with
  | some c, some d => [Event.cropRect c.cx c.cy c.cw c.ch, Event.drawTex d.x d.y d.z d.w d.h]
  | _, _ => []

/-! ## Render loop (lines 588-710 of `main`) -/

/-- What the render loop consumes in one iteration: the gamepad state that
`go2_input_gamepad_read` delivers and the value `mCoreSyncWaitFrameStart` returns. -/
structure LoopInput where
  gamepad : GamepadState
  ready : Bool

/-- One iteration of the `while (1)` loop at lines 588-710: the calls it makes, and whether
the loop goes on (`false` after the `break`).  The store `isRunning = false` before
`mCoreThreadEnd` is not a call and is not logged. -/
def renderIteration (emuDevice : emu_device_t) (width height : Nat) (inp : LoopInput) :
    List Event × Bool :=
  if inp.gamepad.buttons.f1 ≠ 0 then
    ([Event.gamepadRead, Event.threadEnd], false)
  else
    let keys := keyMask inp.gamepad
    let head := [Event.gamepadRead, Event.interrupt, Event.setKeys keys, Event.continue_,
                 Event.waitFrameStart inp.ready]
    if inp.ready then
      (head ++ [Event.glClear, Event.texSubImage width height, Event.waitFrameEnd]
        ++ drawEvents emuDevice width height
        ++ [Event.swapBuffers, Event.surfaceLock, Event.presenterPost, Event.surfaceUnlock],
       true)
    else
      (head ++ [Event.waitFrameEnd, Event.usleep], true)

/-- The `while (1)` loop at lines 588-710, run on the inputs of its successive iterations:
the calls it makes and whether it was left by the `break` (`false`: the inputs ran out
while it was still looping). -/
def renderLoop (emuDevice : emu_device_t) (width height : Nat) :
    List LoopInput → List Event × Bool
  | [] => ([], false)
  | inp :: rest =>
    let it := renderIteration emuDevice width height inp
    if it.2 then
      let r := renderLoop emuDevice width height rest
      (it.1 ++ r.1, r.2)
    else (it.1, true)

/-- Appends calls to the log of a world. -/
def World.emit {σ : Type} (w : World σ) (events : List Event) : World σ :=
  { w with log := w.log ++ events }

/-- Lines 546-710 of `main`, from the start of the engine thread to the end of the render
loop.  The result is `none` when `PathCombine` has none (empty home directory); otherwise
the outcome carries whether the render loop was left by its `break`. -/
def mainSession {σ : Type} (ops : CoreOps σ) (libcState libcSram : Libc)
    (filename homedir : CStr) (emuDevice : emu_device_t) (width height : Nat)
    (inputs : List LoopInput) (w : World σ) : Option (Outcome Bool σ) :=
  let w := w.emit [Event.threadStart, Event.audioTaskCreate]
  match savePathOf homedir filename, sramPathOf homedir filename with
  | some savePath, some sramPath =>
    let w := w.emit [Event.interrupt]
    match LoadState ops libcState savePath w with
    | .abort w => some (.abort w)
    | .ret _ w =>
      match LoadSram ops libcSram sramPath w with
      | .abort w => some (.abort w)
      | .ret _ w =>
        let w := w.emit [Event.continue_]
        let r := renderLoop emuDevice width height inputs
        some (.ret r.2 (w.emit r.1))
  | _, _ => none

/-! ## Audio pump (`audio_task`, lines 288-337) -/

/-- The macro `SOUND_FREQUENCY`. -/
def SOUND_FREQUENCY : Nat := 44100

/-- Calls made by the audio pump, in program order. -/
inductive AudioEvent
  | lockAudio
  | setRates (channel : Nat) (clockRate sampleRate : Nat)
  | samplesAvail (channel : Nat)
  | readSamples (channel : Nat) (offset : Nat) (count : Nat)
  | submit (frameCount : Nat)
  | consumeAudio
  | unlockAudio
  | usleep
  deriving DecidableEq, Repr

/-- What one iteration of the pump reads from the engine: the two values of
`core->frequency(core)` and the value of `blip_samples_avail` on channel 0. -/
structure PumpInput where
  frequency0 : Nat
  frequency1 : Nat
  available : Nat

/-- The body of the `while (isRunning)` loop, lines 301-323 (the `#if 1` branch). -/
def pumpIteration (inp : PumpInput) : List AudioEvent :=
  let head := [AudioEvent.lockAudio,
               AudioEvent.setRates 0 inp.frequency0 SOUND_FREQUENCY,
               AudioEvent.setRates 1 inp.frequency1 SOUND_FREQUENCY,
               AudioEvent.samplesAvail 0]
  if inp.available ≥ SOUND_FREQUENCY / 60 then
    head ++ [AudioEvent.readSamples 0 0 inp.available,
             AudioEvent.readSamples 1 1 inp.available,
             AudioEvent.submit inp.available,
             AudioEvent.consumeAudio]
  else
    head ++ [AudioEvent.unlockAudio, AudioEvent.usleep]

/-- The function `audio_task`: the loop runs one iteration for each input while `isRunning`
reads true; each list element carries the value read from `isRunning` at the loop test. -/
def audio_task : List (Bool × PumpInput) → List AudioEvent
  | [] => []
  | (isRunning, inp) :: rest =>
    if isRunning then pumpIteration inp ++ audio_task rest else []

/-! ## Protocols the traces are checked against -/

/-- Runs a two-state protocol over a trace: `none` as soon as a call is not allowed in the
current state, otherwise the state reached at the end. -/
def runProtocol {α : Type} (step : Bool → α → Option Bool) : Bool → List α → Option Bool
  | s, [] => some s
  | s, e :: es =>
    match step s e with
    | none => none
    | some s2 => runProtocol step s2 es

/-- The calls to the frame gate. -/
def Event.isFrameCall : Event → Bool
  | .waitFrameStart _ => true
  | .waitFrameEnd => true
  | _ => false

/-- Frame handshake: the state is "a `wait_frame_start` awaits its `wait_frame_end`".  A
start is allowed only when none is pending, an end only when one is. -/
def frameStep (pending : Bool) : Event → Option Bool
  | .waitFrameStart _ => if pending then none else some true
  | .waitFrameEnd => if pending then some false else none
  | _ => some pending

/-- The balanced call sequence of the frame gate: one `wait_frame_start` (with the given
result) followed by one `wait_frame_end`, for each element. -/
def framePairs : List Bool → List Event
  | [] => []
  | r :: rs => Event.waitFrameStart r :: Event.waitFrameEnd :: framePairs rs

/-- The reading "no read before the frame-end signal": every copy of the video buffer
(`texSubImage`) comes after a `wait_frame_end` of the same trace; `seen` tells whether one
has occurred. -/
def copyAfterFrameEnd : Bool → List Event → Bool
  | _, [] => true
  | _, .waitFrameEnd :: es => copyAfterFrameEnd true es
  | seen, .texSubImage _ _ :: es => seen && copyAfterFrameEnd seen es
  | seen, _ :: es => copyAfterFrameEnd seen es

/-- Copy inside the frame window: the state is "a ready `wait_frame_start` has returned and
its `wait_frame_end` has not been called yet"; a copy of the video buffer is allowed only
in that state. -/
def copyStep (window : Bool) : Event → Option Bool
  | .waitFrameStart ready => some ready
  | .waitFrameEnd => some false
  | .texSubImage _ _ => if window then some true else none
  | _ => some window

/-- The calls by which the main thread mutates the engine session. -/
def Event.isMutation : Event → Bool
  | .setKeys _ => true
  | .loadStateNamed _ => true
  | .savedataRestore _ _ _ => true
  | _ => false

/-- The calls the bracket discipline constrains: interrupt, continue, end and mutations. -/
def Event.isBracketCall : Event → Bool
  | .interrupt => true
  | .continue_ => true
  | .threadEnd => true
  | e => e.isMutation

/-- Interrupt/continue discipline: the state is "a bracket is open".  An interrupt is
allowed only with no bracket open, a continue and a mutation only inside a bracket, `end()`
only with no bracket open. -/
def bracketStep (opened : Bool) : Event → Option Bool
  | .interrupt => if opened then none else some true
  | .continue_ => if opened then some false else none
  | .threadEnd => if opened then none else some false
  | .setKeys _ => if opened then some true else none
  | .loadStateNamed _ => if opened then some true else none
  | .savedataRestore _ _ _ => if opened then some true else none
  | _ => some opened

/-- The world an outcome leaves. -/
def Outcome.world {α σ : Type} : Outcome α σ → World σ
  | .ret _ w => w
  | .abort w => w

/-- The calls that read samples from a channel. -/
def AudioEvent.isRead : AudioEvent → Bool
  | .readSamples _ _ _ => true
  | _ => false

/-- The calls that release the audio lock: the plain unlock, and the acknowledgement to the
producer (`mCoreSyncConsumeAudio`), which releases it too. -/
def AudioEvent.isRelease : AudioEvent → Bool
  | .consumeAudio => true
  | .unlockAudio => true
  | _ => false

/-- Audio lock discipline: the state is "the lock is held".  The lock is taken only when
free and released only when held, the channels are touched only while it is held, and the
pump yields (`usleep`) only when it is free. -/
def lockStep (held : Bool) : AudioEvent → Option Bool
  | .lockAudio => if held then none else some true
  | .consumeAudio => if held then some false else none
  | .unlockAudio => if held then some false else none
  | .usleep => if held then none else some false
  | _ => if held then some true else none

/-- The crop rectangle selects a region of positive width and negative height inside a
frame of `fw` x `fh` pixels. -/
def CropRect.insideFrame (c : CropRect) (fw fh : Int) : Prop :=
  0 < c.cw ∧ c.ch < 0 ∧ 0 ≤ c.cx ∧ c.cx + c.cw ≤ fw ∧ 0 ≤ c.cy + c.ch ∧ c.cy ≤ fh

/-- The destination rectangle lies on the 480x320 display. -/
def DestRect.insideDisplay (d : DestRect) : Prop :=
  0 ≤ d.x ∧ 0 ≤ d.y ∧ d.x + d.w ≤ 480 ∧ d.y + d.h ≤ 320

/-- The copy of the video frame buffer into the source texture (`glTexSubImage2D`). -/
def Event.isCopy : Event → Bool
  | .texSubImage _ _ => true
  | _ => false

/-- A run of three iterations: a ready frame, a frame that is not ready, then F1. -/
def sampleInputs : List LoopInput :=
  [⟨sampleGamepad, true⟩, ⟨sampleGamepad, false⟩, ⟨quitGamepad, true⟩]

/-- A session for the examples: the engine session is a counter of restores, on a Game Boy
Advance. -/
def sampleOps : CoreOps Nat :=
  { loadStateNamed := fun n _ => n + 1
    savedataRestore := fun n _ _ _ => n + 1
    platform := fun _ => Platform.GBA }

/-- A C library in which every call succeeds in full. -/
def sampleLibc : Libc :=
  { fopenRead := true, fopenWrite := true, mallocOk := fun _ => true
    freadCount := fun n => n, fwriteCount := fun n => n
    fwriteThrough := fun _ => 0, fcloseFlushed := fun n => n }

/-- A C library on a full disk: the stream can be opened and `fwrite` takes every byte into
its buffer, but nothing is written through and the flush inside `fclose` stores nothing. -/
def fullDiskLibc : Libc :=
  { fopenRead := true, fopenWrite := true, mallocOk := fun _ => true
    freadCount := fun n => n, fwriteCount := fun n => n
    fwriteThrough := fun _ => 0, fcloseFlushed := fun _ => 0 }

/-- A world with no files, a fresh session and an empty log. -/
def sampleWorld : World Nat :=
  { fs := fun _ => none, core := 0, log := [] }

/-! ## Entry of `main` (lines 339-374) -/

/-- The constant `false` of `stdbool.h`, as the `int` that `return false;` yields. -/
def C_false : Int := 0

/-- The calls `main` makes from its entry up to the lookup of the engine core. -/
inductive StartupCall
  | printf (text : String)
  | displayCreate
  | presenterCreate
  | contextCreate (width height : Nat)
  | contextMakeCurrent
  | coreFind
  deriving DecidableEq, Repr

/-- How the entry of `main` ends: `main` returns with an exit status, or it goes on with the
rest of startup (line 377 onwards). -/
inductive EntryResult
  | exited (status : Int)
  | goesOn
  deriving DecidableEq, Repr

/-- Lines 339-374 of `main`: the argument check, the creation of display, presenter and
context, and the lookup of the core (`coreFound`: `mCoreFind` returned a non-null core).
The result is the calls made, in order, and how the entry ends. -/
def mainEntry (argc : Int) (coreFound : Bool) : List StartupCall × EntryResult :=
  if argc < 2 then
    ([StartupCall.printf "missing filename.\n"], EntryResult.exited C_false)
  else
    let calls := [StartupCall.displayCreate, StartupCall.presenterCreate,
                  StartupCall.contextCreate 480 320, StartupCall.contextMakeCurrent,
                  StartupCall.coreFind]
    if !coreFound then (calls, EntryResult.exited C_false)
    else (calls, EntryResult.goesOn)

/-- The status of the `return 0;` that ends a complete run of `main` (line 743). -/
def mainSuccessStatus : Int := 0

/-! # Theorems -/

/-! ## Persistence -/

theorem FileSystem.write_same (fs : FileSystem) (path : CStr) (bytes : List Byte) :
    fs.write path bytes path = some bytes := by
  simp [FileSystem.write]

/-- The function `SaveSram` returns exactly when the file could be opened and the write was not short. -/
theorem SaveSram_returns_iff {σ : Type} (libc : Libc) (path : CStr) (blob : List Byte)
    (w : World σ) :
    (∃ w2, SaveSram libc path blob blob.length w = .ret () w2) ↔
      (libc.fopenWrite = true ∧ blob.length ≤ libc.fwriteCount blob.length) := by
  unfold SaveSram
  by_cases ho : libc.fopenWrite = true
  · by_cases hc : blob.length ≤ libc.fwriteCount blob.length
    · simp [ho, hc]
    · have hlt : libc.fwriteCount blob.length < blob.length := Nat.lt_of_not_le hc
      simp [ho, hc, Nat.min_eq_left (Nat.le_of_lt hlt), Nat.ne_of_lt hlt]
  · simp [ho]

/-- What a returning `SaveSram` leaves: the open succeeded, `fwrite` accepted every byte,
and the file holds the bytes that were in it once `fclose` had returned. -/
theorem SaveSram_returns_eq {σ : Type} (libc : Libc) (path : CStr) (blob : List Byte)
    (w w1 : World σ) (hsave : SaveSram libc path blob blob.length w = .ret () w1) :
    libc.fopenWrite = true ∧ blob.length ≤ libc.fwriteCount blob.length ∧
    w1 = { w with fs := w.fs.write path (blob.take (libc.afterClose blob.length)) } := by
  unfold SaveSram at hsave
  by_cases ho : libc.fopenWrite = true
  · by_cases hc : blob.length ≤ libc.fwriteCount blob.length
    · simp [ho, hc] at hsave
      exact ⟨ho, hc, hsave.symm⟩
    · have hlt : libc.fwriteCount blob.length < blob.length := Nat.lt_of_not_le hc
      simp [ho, Nat.min_eq_left (Nat.le_of_lt hlt), Nat.ne_of_lt hlt] at hsave
  · simp [ho] at hsave

theorem Libc.afterClose_le (libc : Libc) (count : Nat) : libc.afterClose count ≤ count := by
  unfold Libc.afterClose Libc.through
  omega

/-- What `LoadSram` does on a file holding `content` when its open, allocation and read
complete: it passes `content` and its length to `savedataRestore` and returns 0. -/
theorem LoadSram_completes {σ : Type} (ops : CoreOps σ) (libc : Libc) (path : CStr)
    (content : List Byte) (w : World σ) (hfile : w.fs path = some content)
    (hopen : libc.fopenRead = true) (hmalloc : libc.mallocOk content.length = true)
    (hread : content.length ≤ libc.freadCount content.length) :
    LoadSram ops libc path w =
      .ret 0 { w with
        core := ops.savedataRestore w.core content content.length
          (decide (ops.platform w.core = Platform.GB))
        log := w.log ++ [Event.platform,
          Event.savedataRestore content content.length
            (decide (ops.platform w.core = Platform.GB))] } := by
  unfold LoadSram fopenRb
  rw [hopen, if_pos rfl, hfile]
  simp [hmalloc, hread]

/-- Round trip when the flush inside `fclose` stored every byte: if `SaveSram` returns and
all the bytes are in the file once `fclose` has returned, the file holds the block, and a
later `LoadSram` whose open, allocation and read complete returns 0 and passes the engine
the same bytes with the same size. -/
theorem SaveSram_LoadSram_roundtrip_flushed {σ : Type} (libc : Libc) (path : CStr)
    (blob : List Byte) (w w1 : World σ)
    (hsave : SaveSram libc path blob blob.length w = .ret () w1)
    (hflush : blob.length ≤ libc.afterClose blob.length) :
    w1.fs path = some blob ∧
    ∀ (ops : CoreOps σ) (libc2 : Libc) (w2 : World σ),
      w2.fs path = w1.fs path →
      libc2.fopenRead = true → libc2.mallocOk blob.length = true →
      blob.length ≤ libc2.freadCount blob.length →
      LoadSram ops libc2 path w2 =
        .ret 0 { w2 with
          core := ops.savedataRestore w2.core blob blob.length
            (decide (ops.platform w2.core = Platform.GB))
          log := w2.log ++ [Event.platform,
            Event.savedataRestore blob blob.length
              (decide (ops.platform w2.core = Platform.GB))] } := by
  obtain ⟨-, -, hw1⟩ := SaveSram_returns_eq libc path blob w w1 hsave
  have hfs : w1.fs path = some blob := by
    rw [hw1]
    simp [FileSystem.write, List.take_of_length_le hflush]
  refine ⟨hfs, ?_⟩
  intro ops libc2 w2 hsame hopen hmalloc hread
  exact LoadSram_completes ops libc2 path blob w2 (hsame.trans hfs) hopen hmalloc hread

/-- C1 (the code at the failing input). `SaveSram` tests only the count `fwrite` returns and
ignores the result of `fclose`: when the open succeeds, `fwrite` accepts all `len` bytes
and fewer than `len` are in the file once `fclose` has returned (the flush failed),
`SaveSram` returns without aborting and the file at the path holds a proper prefix of the
block, not the block; a following `LoadSram` whose open, allocation and read complete then
returns 0 and hands the engine that shorter block, with a size below `len`. -/
theorem SaveSram_silent_truncation {σ : Type} (libc : Libc) (path : CStr) (blob : List Byte)
    (w : World σ) (hopen : libc.fopenWrite = true)
    (hcount : blob.length ≤ libc.fwriteCount blob.length)
    (hshort : libc.afterClose blob.length < blob.length) :
    SaveSram libc path blob blob.length w =
      .ret () { w with fs := w.fs.write path (blob.take (libc.afterClose blob.length)) } ∧
    (w.fs.write path (blob.take (libc.afterClose blob.length))) path ≠ some blob ∧
    (blob.take (libc.afterClose blob.length)).length < blob.length ∧
    ∀ (ops : CoreOps σ) (libc2 : Libc) (w2 : World σ),
      w2.fs path = some (blob.take (libc.afterClose blob.length)) →
      libc2.fopenRead = true →
      libc2.mallocOk (blob.take (libc.afterClose blob.length)).length = true →
      (blob.take (libc.afterClose blob.length)).length ≤
        libc2.freadCount (blob.take (libc.afterClose blob.length)).length →
      LoadSram ops libc2 path w2 =
        .ret 0 { w2 with
          core := ops.savedataRestore w2.core (blob.take (libc.afterClose blob.length))
            (blob.take (libc.afterClose blob.length)).length
            (decide (ops.platform w2.core = Platform.GB))
          log := w2.log ++ [Event.platform,
            Event.savedataRestore (blob.take (libc.afterClose blob.length))
              (blob.take (libc.afterClose blob.length)).length
              (decide (ops.platform w2.core = Platform.GB))] } := by
  have hlen : (blob.take (libc.afterClose blob.length)).length < blob.length := by
    rw [List.length_take]
    omega
  refine ⟨?_, ?_, hlen, ?_⟩
  · unfold SaveSram
    simp [hopen, hcount]
  · rw [FileSystem.write_same]
    intro h
    have h2 := congrArg List.length (Option.some.inj h)
    omega
  · intro ops libc2 w2 hfile hopen2 hmalloc hread
    exact LoadSram_completes ops libc2 path _ w2 hfile hopen2 hmalloc hread

/-- Witness for C1: a three-byte block saved to `/home/odroid/game.srm` on a full disk
(`fwrite` buffers the three bytes, the flush in `fclose` stores none): `SaveSram` returns
and the file is empty. -/
theorem SaveSram_silent_truncation_witness :
    fullDiskLibc.fopenWrite = true ∧
    ([1, 2, 3] : List Byte).length ≤ fullDiskLibc.fwriteCount ([1, 2, 3] : List Byte).length ∧
    fullDiskLibc.afterClose ([1, 2, 3] : List Byte).length < ([1, 2, 3] : List Byte).length ∧
    SaveSram fullDiskLibc "/home/odroid/game.srm".toList [1, 2, 3] 3 sampleWorld =
      .ret () { sampleWorld with
        fs := sampleWorld.fs.write "/home/odroid/game.srm".toList [] } :=
  ⟨rfl, by decide, by decide,
   (SaveSram_silent_truncation fullDiskLibc "/home/odroid/game.srm".toList [1, 2, 3]
      sampleWorld rfl (by decide) (by decide)).1⟩

/-- C2. `LoadState` fails silently on a missing or empty snapshot: when the file at the path
does not exist or has length zero, `LoadState` returns -1, does not abort, does not call the
engine's snapshot restore, and leaves the world (engine session, log, files) as it was. -/
theorem LoadState_missing_or_empty {σ : Type} (ops : CoreOps σ) (libc : Libc) (path : CStr)
    (w : World σ) (h : w.fs path = none ∨ w.fs path = some []) :
    LoadState ops libc path w = .ret (-1) w := by
  unfold LoadState fopenRb
  rcases h with h | h <;> by_cases ho : libc.fopenRead = true <;> simp [h, ho]

/-- Witness for C2: an empty `.sav` file. -/
theorem LoadState_missing_or_empty_witness :
    ((fun p => if p = "/home/odroid/game.sav".toList then some [] else none :
        FileSystem) "/home/odroid/game.sav".toList = none ∨
      (fun p => if p = "/home/odroid/game.sav".toList then some [] else none :
        FileSystem) "/home/odroid/game.sav".toList = some []) ∧
    LoadState (σ := Nat) ⟨fun _ _ => 1, fun _ _ _ _ => 2, fun _ => Platform.GBA⟩
        ⟨true, true, fun _ => true, fun n => n, fun n => n, fun _ => 0, fun n => n⟩ "/home/odroid/game.sav".toList
        ⟨fun p => if p = "/home/odroid/game.sav".toList then some [] else none, 0, []⟩ =
      .ret (-1)
        ⟨fun p => if p = "/home/odroid/game.sav".toList then some [] else none, 0, []⟩ :=
  ⟨Or.inr (by simp),
   LoadState_missing_or_empty ⟨fun _ _ => 1, fun _ _ _ _ => 2, fun _ => Platform.GBA⟩
     ⟨true, true, fun _ => true, fun n => n, fun n => n, fun _ => 0, fun n => n⟩ "/home/odroid/game.sav".toList
     ⟨fun p => if p = "/home/odroid/game.sav".toList then some [] else none, 0, []⟩
     (Or.inr (by simp))⟩

/-- The function `LoadSram` on a path with no file: it returns -1 and leaves the world as it was. -/
theorem LoadSram_missing {σ : Type} (ops : CoreOps σ) (libc : Libc) (path : CStr)
    (w : World σ) (h : w.fs path = none) :
    LoadSram ops libc path w = .ret (-1) w := by
  unfold LoadSram fopenRb
  by_cases ho : libc.fopenRead = true <;> simp [h, ho]

/-- C3 (the code at the failing input). `LoadSram` on an existing file of length zero, with
the open succeeding: when `malloc(0)` gives a non-null pointer it calls the engine's
`savedataRestore` with size 0 and returns 0 (not -1); when `malloc(0)` gives a null pointer
it aborts.  In neither case does it return -1 with the engine untouched, as `LoadState`
does through its `size < 1` test. -/
theorem LoadSram_empty_file {σ : Type} (ops : CoreOps σ) (libc : Libc) (path : CStr)
    (w : World σ) (h : w.fs path = some []) (hopen : libc.fopenRead = true) :
    (libc.mallocOk 0 = true →
      LoadSram ops libc path w =
        .ret 0 { w with
          core := ops.savedataRestore w.core [] 0 (decide (ops.platform w.core = Platform.GB))
          log := w.log ++ [Event.platform,
            Event.savedataRestore [] 0 (decide (ops.platform w.core = Platform.GB))] }) ∧
    (libc.mallocOk 0 = false → LoadSram ops libc path w = .abort w) ∧
    LoadSram ops libc path w ≠ .ret (-1) w := by
  unfold LoadSram fopenRb
  rw [hopen, if_pos rfl, h]
  by_cases hm : libc.mallocOk 0 = true
  · simp [hm]
  · simp [hm]

/-- Witness for C3: an empty `.srm` file read on a Game Boy Advance session. -/
theorem LoadSram_empty_file_witness :
    LoadSram (σ := Nat) ⟨fun _ _ => 1, fun _ _ _ _ => 2, fun _ => Platform.GBA⟩
        ⟨true, true, fun _ => true, fun n => n, fun n => n, fun _ => 0, fun n => n⟩ "/home/odroid/game.srm".toList
        ⟨fun p => if p = "/home/odroid/game.srm".toList then some [] else none, 0, []⟩ =
      .ret 0
        ⟨fun p => if p = "/home/odroid/game.srm".toList then some [] else none, 2,
         [Event.platform, Event.savedataRestore [] 0 false]⟩ :=
  (LoadSram_empty_file ⟨fun _ _ => 1, fun _ _ _ _ => 2, fun _ => Platform.GBA⟩
     ⟨true, true, fun _ => true, fun n => n, fun n => n, fun _ => 0, fun n => n⟩ "/home/odroid/game.srm".toList
     ⟨fun p => if p = "/home/odroid/game.srm".toList then some [] else none, 0, []⟩
     (by simp) rfl).1 rfl

/-! ## Input -/

/-- No binary32 lies strictly above `0.35f` and at or below 0.35: a value with a 24-bit
significand exceeds `11744051 * 2^-25` exactly when it exceeds 7/20. -/
theorem trim_exact (m : Nat) (e : Int) (hm : m < 2 ^ 24) :
    ((11744051 : ℚ) * (2 : ℚ) ^ (-25 : Int) < (m : ℚ) * (2 : ℚ) ^ e ↔
      (7 / 20 : ℚ) < (m : ℚ) * (2 : ℚ) ^ e) := by
  constructor
  · intro h
    by_cases he : -25 ≤ e
    · obtain ⟨k, hk⟩ := Int.eq_ofNat_of_zero_le (show (0 : Int) ≤ e + 25 by omega)
      have he2 : e = (k : Int) + (-25) := by omega
      rw [he2, zpow_add₀ (by norm_num : (2 : ℚ) ≠ 0), zpow_natCast, ← mul_assoc] at h ⊢
      have hpos : (0 : ℚ) < (2 : ℚ) ^ (-25 : Int) := by positivity
      have h2 : (11744051 : ℚ) < (m : ℚ) * 2 ^ k := lt_of_mul_lt_mul_right h hpos.le
      have h3 : (11744051 : Nat) < m * 2 ^ k := by exact_mod_cast h2
      have h4 : ((11744052 : Nat) : ℚ) ≤ ((m * 2 ^ k : Nat) : ℚ) := by exact_mod_cast h3
      push_cast at h4
      calc (7 / 20 : ℚ) < 11744052 * (2 : ℚ) ^ (-25 : Int) := by norm_num
        _ ≤ (m : ℚ) * 2 ^ k * (2 : ℚ) ^ (-25 : Int) := mul_le_mul_of_nonneg_right h4 hpos.le
    · exfalso
      have hle : (2 : ℚ) ^ e ≤ (2 : ℚ) ^ (-26 : Int) :=
        zpow_le_zpow_right₀ (by norm_num) (by omega)
      have hm2 : (m : ℚ) ≤ 2 ^ 24 := by exact_mod_cast hm.le
      have : (m : ℚ) * (2 : ℚ) ^ e ≤ 2 ^ 24 * (2 : ℚ) ^ (-26 : Int) :=
        mul_le_mul hm2 hle (by positivity) (by positivity)
      have h5 : (2 : ℚ) ^ 24 * (2 : ℚ) ^ (-26 : Int) < 11744051 * (2 : ℚ) ^ (-25 : Int) := by
        norm_num
      exact absurd (lt_of_lt_of_le h this) (not_lt.mpr h5.le)
  · intro h
    have : (11744051 : ℚ) * (2 : ℚ) ^ (-25 : Int) < 7 / 20 := by norm_num
    exact lt_trans this h

theorem F32.value_false (m : Nat) (e : Int) :
    F32.value false m e = (m : ℚ) * (2 : ℚ) ^ e := by
  simp [F32.value]

theorem F32.value_true (m : Nat) (e : Int) :
    F32.value true m e = -((m : ℚ) * (2 : ℚ) ^ e) := by
  simp [F32.value]

theorem F32.value_false_nonneg (m : Nat) (e : Int) : 0 ≤ F32.value false m e := by
  rw [F32.value_false]; positivity

/-- On a binary32, the test `x > TRIM` of the code holds exactly when `x` exceeds 0.35. -/
theorem F32.gt_TRIM_iff (x : F32) (hx : x.wf) :
    F32.gt x TRIM = true ↔ x.above (7 / 20) := by
  cases x with
  | nan => simp [F32.gt, F32.lt, F32.above, TRIM]
  | inf n => cases n <;> simp [F32.gt, F32.lt, F32.above, TRIM]
  | fin n m e =>
    have hm : m < 2 ^ 24 := hx.1
    cases n with
    | false =>
      simp only [F32.gt, F32.lt, TRIM, F32.above, decide_eq_true_eq, F32.value_false]
      exact_mod_cast trim_exact m e hm
    | true =>
      have h0 := F32.value_false_nonneg m e
      rw [F32.value_false] at h0
      simp only [F32.gt, F32.lt, TRIM, F32.above, decide_eq_true_eq, F32.value_false,
        F32.value_true]
      constructor
      · intro h
        have : (0 : ℚ) < ((11744051 : Nat) : ℚ) * (2 : ℚ) ^ (-25 : Int) := by positivity
        linarith
      · intro h
        linarith

/-- On a binary32, the test `x < -TRIM` of the code holds exactly when `x` is below -0.35. -/
theorem F32.lt_neg_TRIM_iff (x : F32) (hx : x.wf) :
    F32.lt x (F32.neg TRIM) = true ↔ x.below (-(7 / 20)) := by
  cases x with
  | nan => simp [F32.lt, F32.below, TRIM, F32.neg]
  | inf n => cases n <;> simp [F32.lt, F32.below, TRIM, F32.neg]
  | fin n m e =>
    have hm : m < 2 ^ 24 := hx.1
    cases n with
    | true =>
      simp only [F32.lt, TRIM, F32.neg, F32.below, decide_eq_true_eq, F32.value_true,
        Bool.not_false, neg_lt_neg_iff]
      exact_mod_cast trim_exact m e hm
    | false =>
      have h0 := F32.value_false_nonneg m e
      rw [F32.value_false] at h0
      simp only [F32.lt, TRIM, F32.neg, F32.below, decide_eq_true_eq, F32.value_false,
        F32.value_true, Bool.not_false]
      constructor
      · intro h
        have : (0 : ℚ) < ((11744051 : Nat) : ℚ) * (2 : ℚ) ^ (-25 : Int) := by positivity
        linarith
      · intro h
        linarith

theorem testBit_field (f j : Nat) (h : f ≤ 1) :
    f.testBit j = (decide (j = 0) && decide (f = 1)) := by
  interval_cases f
  · simp
  · rcases j with _ | j
    · simp
    · have : Nat.testBit 1 (j + 1) = false := Nat.testBit_lt_two_pow (by
        calc 1 < 2 ^ 1 := by norm_num
          _ ≤ 2 ^ (j + 1) := Nat.pow_le_pow_right (by norm_num) (by omega))
      simp [this]

theorem testBit_stick (c : Bool) (k i : Nat) :
    (if c = true then 1 <<< k else 0).testBit i = (decide (i = k) && c) := by
  cases c
  · simp
  · simp only [if_true, Nat.testBit_shiftLeft, Bool.and_true]
    by_cases hik : i = k
    · subst hik; simp
    · by_cases hge : k ≤ i
      · have hpos : i - k ≠ 0 := by omega
        obtain ⟨j, hj⟩ := Nat.exists_eq_succ_of_ne_zero hpos
        have : Nat.testBit 1 (i - k) = false := by
          rw [hj]
          exact Nat.testBit_lt_two_pow (by
            calc 1 < 2 ^ 1 := by norm_num
              _ ≤ 2 ^ (j + 1) := Nat.pow_le_pow_right (by norm_num) (by omega))
        simp [this, hik]
      · simp [hge, hik]

/-- Bit by bit, the key mask of a valid gamepad state. -/
theorem keyMask_testBit (g : GamepadState) (h : g.valid) (i : Nat) :
    (keyMask g).testBit i =
      ((decide (i = 0) && decide (g.buttons.a = 1)) ||
       (decide (i = 1) && decide (g.buttons.b = 1)) ||
       (decide (i = 2) && decide (g.buttons.f3 = 1)) ||
       (decide (i = 3) && decide (g.buttons.f4 = 1)) ||
       (decide (i = 4) && (decide (g.dpad.right = 1) || F32.gt g.thumb.x TRIM)) ||
       (decide (i = 5) && (decide (g.dpad.left = 1) || F32.lt g.thumb.x (F32.neg TRIM))) ||
       (decide (i = 6) && (decide (g.dpad.up = 1) || F32.lt g.thumb.y (F32.neg TRIM))) ||
       (decide (i = 7) && (decide (g.dpad.down = 1) || F32.gt g.thumb.y TRIM)) ||
       (decide (i = 8) && decide (g.buttons.top_right = 1)) ||
       (decide (i = 9) && decide (g.buttons.top_left = 1))) := by
  obtain ⟨ha, hb, hf3, hf4, htr, htl, hr, hl, hu, hd, -, -⟩ := h
  unfold keyMask orAssign
  simp only [Nat.testBit_mod_two_pow, Nat.testBit_or, Nat.testBit_shiftLeft,
    testBit_field _ _ ha, testBit_field _ _ hb, testBit_field _ _ hf3, testBit_field _ _ hf4,
    testBit_field _ _ htr, testBit_field _ _ htl, testBit_field _ _ hr, testBit_field _ _ hl,
    testBit_field _ _ hu, testBit_field _ _ hd, Nat.zero_testBit, testBit_stick]
  by_cases hi : i < 10
  · interval_cases i <;> simp
  · have h0 : ¬ i = 0 := by omega
    have h1 : ¬ i = 1 := by omega
    have h2 : ¬ i = 2 := by omega
    have h3 : ¬ i = 3 := by omega
    have h4 : ¬ i = 4 := by omega
    have h5 : ¬ i = 5 := by omega
    have h6 : ¬ i = 6 := by omega
    have h7 : ¬ i = 7 := by omega
    have h8 : ¬ i = 8 := by omega
    have h9 : ¬ i = 9 := by omega
    have e1 : ¬ i - 1 = 0 := by omega
    have e2 : ¬ i - 2 = 0 := by omega
    have e3 : ¬ i - 3 = 0 := by omega
    have e4 : ¬ i - 4 = 0 := by omega
    have e5 : ¬ i - 5 = 0 := by omega
    have e6 : ¬ i - 6 = 0 := by omega
    have e7 : ¬ i - 7 = 0 := by omega
    have e8 : ¬ i - 8 = 0 := by omega
    have e9 : ¬ i - 9 = 0 := by omega
    simp [h0, h1, h2, h3, h4, h5, h6, h7, h8, h9, e1, e2, e3, e4, e5, e6, e7, e8, e9]

theorem keyMask_right_iff (g : GamepadState) (h : g.valid) :
    (decide (g.dpad.right = 1) || F32.gt g.thumb.x TRIM) = true ↔ g.assertsRight := by
  simp only [Bool.or_eq_true, decide_eq_true_eq, GamepadState.assertsRight,
    F32.gt_TRIM_iff _ h.2.2.2.2.2.2.2.2.2.2.1]

theorem keyMask_left_iff (g : GamepadState) (h : g.valid) :
    (decide (g.dpad.left = 1) || F32.lt g.thumb.x (F32.neg TRIM)) = true ↔ g.assertsLeft := by
  simp only [Bool.or_eq_true, decide_eq_true_eq, GamepadState.assertsLeft,
    F32.lt_neg_TRIM_iff _ h.2.2.2.2.2.2.2.2.2.2.1]

theorem keyMask_up_iff (g : GamepadState) (h : g.valid) :
    (decide (g.dpad.up = 1) || F32.lt g.thumb.y (F32.neg TRIM)) = true ↔ g.assertsUp := by
  simp only [Bool.or_eq_true, decide_eq_true_eq, GamepadState.assertsUp,
    F32.lt_neg_TRIM_iff _ h.2.2.2.2.2.2.2.2.2.2.2]

theorem keyMask_down_iff (g : GamepadState) (h : g.valid) :
    (decide (g.dpad.down = 1) || F32.gt g.thumb.y TRIM) = true ↔ g.assertsDown := by
  simp only [Bool.or_eq_true, decide_eq_true_eq, GamepadState.assertsDown,
    F32.gt_TRIM_iff _ h.2.2.2.2.2.2.2.2.2.2.2]

/-- C4. Input mask direction bits: for every gamepad state whose button and d-pad fields are
0 or 1 (stick axes any binary32, NaN and infinities included), bit 4 of the key mask is set
iff right is pressed on the d-pad or thumb.x > 0.35, bit 5 iff left is pressed or
thumb.x < -0.35, bit 6 iff up is pressed or thumb.y < -0.35, bit 7 iff down is pressed or
thumb.y > 0.35; changing the stick changes no bit outside bits 4 to 7; and two states with
the same buttons that assert the same directions, by d-pad, by stick or by both, have the
same mask. -/
theorem keyMask_direction_bits (g : GamepadState) (h : g.valid) :
    ((keyMask g).testBit 4 = true ↔ (g.dpad.right = 1 ∨ g.thumb.x.above (7 / 20))) ∧
    ((keyMask g).testBit 5 = true ↔ (g.dpad.left = 1 ∨ g.thumb.x.below (-(7 / 20)))) ∧
    ((keyMask g).testBit 6 = true ↔ (g.dpad.up = 1 ∨ g.thumb.y.below (-(7 / 20)))) ∧
    ((keyMask g).testBit 7 = true ↔ (g.dpad.down = 1 ∨ g.thumb.y.above (7 / 20))) ∧
    (∀ t : Thumb, t.x.wf → t.y.wf → ∀ i : Nat, (i < 4 ∨ 7 < i) →
      (keyMask { g with thumb := t }).testBit i = (keyMask g).testBit i) ∧
    (∀ g2 : GamepadState, g2.valid → g2.buttons = g.buttons →
      (g2.assertsRight ↔ g.assertsRight) → (g2.assertsLeft ↔ g.assertsLeft) →
      (g2.assertsUp ↔ g.assertsUp) → (g2.assertsDown ↔ g.assertsDown) →
      keyMask g2 = keyMask g) := by
  refine ⟨?_, ?_, ?_, ?_, ?_, ?_⟩
  · rw [keyMask_testBit g h]
    simpa using keyMask_right_iff g h
  · rw [keyMask_testBit g h]
    simpa using keyMask_left_iff g h
  · rw [keyMask_testBit g h]
    simpa using keyMask_up_iff g h
  · rw [keyMask_testBit g h]
    simpa using keyMask_down_iff g h
  · intro t htx hty i hi
    have hv : ({ g with thumb := t } : GamepadState).valid := by
      obtain ⟨ha, hb, hf3, hf4, htr, htl, hr, hl, hu, hd, -, -⟩ := h
      exact ⟨ha, hb, hf3, hf4, htr, htl, hr, hl, hu, hd, htx, hty⟩
    rw [keyMask_testBit g h, keyMask_testBit _ hv]
    have h4 : ¬ i = 4 := by omega
    have h5 : ¬ i = 5 := by omega
    have h6 : ¬ i = 6 := by omega
    have h7 : ¬ i = 7 := by omega
    simp [h4, h5, h6, h7]
  · intro g2 hv hb hr hl hu hd
    have er : (decide (g2.dpad.right = 1) || F32.gt g2.thumb.x TRIM) =
        (decide (g.dpad.right = 1) || F32.gt g.thumb.x TRIM) :=
      Bool.eq_iff_iff.mpr (((keyMask_right_iff g2 hv).trans hr).trans
        (keyMask_right_iff g h).symm)
    have el : (decide (g2.dpad.left = 1) || F32.lt g2.thumb.x (F32.neg TRIM)) =
        (decide (g.dpad.left = 1) || F32.lt g.thumb.x (F32.neg TRIM)) :=
      Bool.eq_iff_iff.mpr (((keyMask_left_iff g2 hv).trans hl).trans
        (keyMask_left_iff g h).symm)
    have eu : (decide (g2.dpad.up = 1) || F32.lt g2.thumb.y (F32.neg TRIM)) =
        (decide (g.dpad.up = 1) || F32.lt g.thumb.y (F32.neg TRIM)) :=
      Bool.eq_iff_iff.mpr (((keyMask_up_iff g2 hv).trans hu).trans
        (keyMask_up_iff g h).symm)
    have ed : (decide (g2.dpad.down = 1) || F32.gt g2.thumb.y TRIM) =
        (decide (g.dpad.down = 1) || F32.gt g.thumb.y TRIM) :=
      Bool.eq_iff_iff.mpr (((keyMask_down_iff g2 hv).trans hd).trans
        (keyMask_down_iff g h).symm)
    apply Nat.eq_of_testBit_eq
    intro i
    rw [keyMask_testBit g h, keyMask_testBit g2 hv, er, el, eu, ed, hb]

/-- Witness for C4: the A button held, d-pad right pressed, stick at (0.5, -0.75). -/
theorem keyMask_direction_bits_witness :
    sampleGamepad.valid ∧
    ((keyMask sampleGamepad).testBit 4 = true ↔
      (sampleGamepad.dpad.right = 1 ∨ sampleGamepad.thumb.x.above (7 / 20))) :=
  ⟨by simp [GamepadState.valid, sampleGamepad, F32.wf],
   (keyMask_direction_bits sampleGamepad
     (by simp [GamepadState.valid, sampleGamepad, F32.wf])).1⟩

/-! ## Render loop -/

theorem runProtocol_append {α : Type} (step : Bool → α → Option Bool) (s : Bool)
    (xs ys : List α) :
    runProtocol step s (xs ++ ys) =
      (runProtocol step s xs).bind (fun s2 => runProtocol step s2 ys) := by
  induction xs generalizing s with
  | nil => simp [runProtocol]
  | cons x xs ih =>
    simp only [List.cons_append, runProtocol]
    cases step s x with
    | none => simp
    | some s2 => simpa using ih s2

theorem runProtocol_neutral {α : Type} (step : Bool → α → Option Bool) (s : Bool)
    (xs : List α) (h : ∀ e ∈ xs, step s e = some s) : runProtocol step s xs = some s := by
  induction xs with
  | nil => simp [runProtocol]
  | cons x xs ih =>
    simp only [runProtocol, h x (List.mem_cons_self x xs)]
    exact ih (fun e he => h e (List.mem_cons_of_mem x he))

theorem renderIteration_break (d : emu_device_t) (width height : Nat) (inp : LoopInput)
    (h : inp.gamepad.buttons.f1 ≠ 0) :
    renderIteration d width height inp = ([Event.gamepadRead, Event.threadEnd], false) := by
  simp [renderIteration, h]

theorem renderIteration_ready (d : emu_device_t) (width height : Nat) (inp : LoopInput)
    (h : inp.gamepad.buttons.f1 = 0) (hr : inp.ready = true) :
    renderIteration d width height inp =
      ([Event.gamepadRead, Event.interrupt, Event.setKeys (keyMask inp.gamepad),
        Event.continue_, Event.waitFrameStart true, Event.glClear,
        Event.texSubImage width height, Event.waitFrameEnd]
        ++ drawEvents d width height
        ++ [Event.swapBuffers, Event.surfaceLock, Event.presenterPost, Event.surfaceUnlock],
       true) := by
  simp [renderIteration, h, hr]

theorem renderIteration_idle (d : emu_device_t) (width height : Nat) (inp : LoopInput)
    (h : inp.gamepad.buttons.f1 = 0) (hr : inp.ready = false) :
    renderIteration d width height inp =
      ([Event.gamepadRead, Event.interrupt, Event.setKeys (keyMask inp.gamepad),
        Event.continue_, Event.waitFrameStart false, Event.waitFrameEnd, Event.usleep],
       true) := by
  simp [renderIteration, h, hr]

theorem renderIteration_continues_iff (d : emu_device_t) (width height : Nat)
    (inp : LoopInput) :
    (renderIteration d width height inp).2 = true ↔ inp.gamepad.buttons.f1 = 0 := by
  by_cases h : inp.gamepad.buttons.f1 = 0
  · cases hr : inp.ready
    · simp [renderIteration_idle d width height inp h hr, h]
    · simp [renderIteration_ready d width height inp h hr, h]
  · simp [renderIteration_break d width height inp h, h]

/-- The draw calls are the crop rectangle and the textured draw, or nothing. -/
theorem drawEvents_plain (d : emu_device_t) (width height : Nat) :
    ∀ e ∈ drawEvents d width height,
      (∃ cx cy cw ch, e = Event.cropRect cx cy cw ch) ∨
      (∃ x y z w h, e = Event.drawTex x y z w h) := by
  intro e he
  cases d <;> simp [drawEvents, cropParams, drawParams] at he <;>
    rcases he with he | he <;> simp [he]

theorem drawEvents_neutral (step : Bool → Event → Option Bool) (s : Bool)
    (hc : ∀ cx cy cw ch, step s (Event.cropRect cx cy cw ch) = some s)
    (hd : ∀ x y z w h, step s (Event.drawTex x y z w h) = some s)
    (d : emu_device_t) (width height : Nat) :
    runProtocol step s (drawEvents d width height) = some s := by
  apply runProtocol_neutral
  intro e he
  rcases drawEvents_plain d width height e he with ⟨cx, cy, cw, ch, rfl⟩ | ⟨x, y, z, w, h, rfl⟩
  · exact hc cx cy cw ch
  · exact hd x y z w h

theorem drawEvents_filter (f : Event → Bool)
    (hc : ∀ cx cy cw ch, f (Event.cropRect cx cy cw ch) = false)
    (hd : ∀ x y z w h, f (Event.drawTex x y z w h) = false)
    (d : emu_device_t) (width height : Nat) :
    (drawEvents d width height).filter f = [] := by
  rw [List.filter_eq_nil_iff]
  intro e he
  rcases drawEvents_plain d width height e he with ⟨cx, cy, cw, ch, rfl⟩ | ⟨x, y, z, w, h, rfl⟩
  · simp [hc]
  · simp [hd]

/-- Over one iteration a protocol that starts and ends in state `false` on each of the three
shapes of an iteration holds over the whole loop. -/
theorem renderLoop_protocol (step : Bool → Event → Option Bool)
    (d : emu_device_t) (width height : Nat)
    (hit : ∀ inp, runProtocol step false (renderIteration d width height inp).1 = some false)
    (inputs : List LoopInput) :
    runProtocol step false (renderLoop d width height inputs).1 = some false := by
  induction inputs with
  | nil => simp [renderLoop, runProtocol]
  | cons inp rest ih =>
    simp only [renderLoop]
    split
    · simp only [runProtocol_append, hit inp, Option.some_bind]
      exact ih
    · exact hit inp

/-- A protocol over a ready iteration: the calls before the draw, the draw calls (which
leave the state alone), the calls after. -/
theorem renderIteration_ready_protocol (step : Bool → Event → Option Bool)
    (d : emu_device_t) (width height : Nat) (inp : LoopInput)
    (h : inp.gamepad.buttons.f1 = 0) (hr : inp.ready = true) (s1 s2 : Bool)
    (hhead : runProtocol step false
      [Event.gamepadRead, Event.interrupt, Event.setKeys (keyMask inp.gamepad),
        Event.continue_, Event.waitFrameStart true, Event.glClear,
        Event.texSubImage width height, Event.waitFrameEnd] = some s1)
    (hc : ∀ cx cy cw ch, step s1 (Event.cropRect cx cy cw ch) = some s1)
    (hd : ∀ x y z w h, step s1 (Event.drawTex x y z w h) = some s1)
    (htail : runProtocol step s1
      [Event.swapBuffers, Event.surfaceLock, Event.presenterPost, Event.surfaceUnlock] =
        some s2) :
    runProtocol step false (renderIteration d width height inp).1 = some s2 := by
  rw [renderIteration_ready d width height inp h hr]
  show runProtocol step false (_ ++ drawEvents d width height ++ _) = some s2
  rw [runProtocol_append, runProtocol_append, hhead, Option.some_bind,
    drawEvents_neutral step s1 hc hd, Option.some_bind, htail]

theorem renderIteration_frame (d : emu_device_t) (width height : Nat) (inp : LoopInput) :
    runProtocol frameStep false (renderIteration d width height inp).1 = some false := by
  by_cases h : inp.gamepad.buttons.f1 = 0
  · cases hr : inp.ready
    · simp [renderIteration_idle d width height inp h hr, runProtocol, frameStep]
    · exact renderIteration_ready_protocol frameStep d width height inp h hr false false rfl
        (fun _ _ _ _ => rfl) (fun _ _ _ _ _ => rfl) rfl
  · simp [renderIteration_break d width height inp h, runProtocol, frameStep]

theorem renderIteration_frameCalls (d : emu_device_t) (width height : Nat) (inp : LoopInput)
    (h : inp.gamepad.buttons.f1 = 0) :
    (renderIteration d width height inp).1.filter Event.isFrameCall =
      [Event.waitFrameStart inp.ready, Event.waitFrameEnd] := by
  cases hr : inp.ready
  · simp [renderIteration_idle d width height inp h hr, List.filter, Event.isFrameCall]
  · rw [renderIteration_ready d width height inp h hr]
    show List.filter _ (_ ++ drawEvents d width height ++ _) = _
    rw [List.filter_append, List.filter_append,
      drawEvents_filter Event.isFrameCall (fun _ _ _ _ => rfl) (fun _ _ _ _ _ => rfl)]
    rfl

/-- C5. Balanced frame handshake: an iteration of the render loop that does not end the loop
calls `wait_frame_start` exactly once and then `wait_frame_end` exactly once, whether a
frame was ready or not; the not-ready iteration ends with `wait_frame_end` followed by the
yield, its only yield; and over every run of the loop the calls to the frame gate strictly
alternate, starting with `wait_frame_start` and ending balanced. -/
theorem frame_handshake_balanced (d : emu_device_t) (width height : Nat) (inp : LoopInput)
    (inputs : List LoopInput) (hcont : (renderIteration d width height inp).2 = true) :
    (renderIteration d width height inp).1.filter Event.isFrameCall =
      [Event.waitFrameStart inp.ready, Event.waitFrameEnd] ∧
    (inp.ready = false →
      ∃ before, (renderIteration d width height inp).1 =
          before ++ [Event.waitFrameEnd, Event.usleep] ∧
        Event.usleep ∉ before ∧ Event.waitFrameStart false ∈ before) ∧
    (inp.ready = true → Event.usleep ∉ (renderIteration d width height inp).1) ∧
    runProtocol frameStep false (renderLoop d width height inputs).1 = some false ∧
    (∃ rs, (renderLoop d width height inputs).1.filter Event.isFrameCall = framePairs rs) := by
  have h : inp.gamepad.buttons.f1 = 0 := (renderIteration_continues_iff d width height inp).1 hcont
  refine ⟨renderIteration_frameCalls d width height inp h, ?_, ?_,
    renderLoop_protocol frameStep d width height (renderIteration_frame d width height)
      inputs, ?_⟩
  · intro hr
    refine ⟨[Event.gamepadRead, Event.interrupt, Event.setKeys (keyMask inp.gamepad),
      Event.continue_, Event.waitFrameStart false], ?_, ?_, ?_⟩
    · rw [renderIteration_idle d width height inp h hr]; rfl
    · simp
    · simp
  · intro hr
    rw [renderIteration_ready d width height inp h hr]
    intro hmem
    simp only [List.mem_append, List.mem_cons, List.mem_singleton, List.not_mem_nil,
      or_false, reduceCtorEq, false_or] at hmem
    rcases drawEvents_plain d width height _ hmem with ⟨_, _, _, _, he⟩ | ⟨_, _, _, _, _, he⟩ <;>
      cases he
  · induction inputs with
    | nil => exact ⟨[], by simp [renderLoop, framePairs]⟩
    | cons i rest ih =>
      obtain ⟨rs, hrs⟩ := ih
      simp only [renderLoop]
      by_cases hi : i.gamepad.buttons.f1 = 0
      · rw [if_pos ((renderIteration_continues_iff d width height i).2 hi)]
        refine ⟨i.ready :: rs, ?_⟩
        simp only [List.filter_append, renderIteration_frameCalls d width height i hi, hrs,
          framePairs, List.cons_append, List.nil_append]
      · refine ⟨[], ?_⟩
        simp [renderIteration_break d width height i hi, Event.isFrameCall, framePairs]

/-- Witness for C5: an iteration on a frame that is not ready, in a run of three. -/
theorem frame_handshake_balanced_witness :
    (renderIteration .GO2_DEVICE_GB 256 224 ⟨sampleGamepad, false⟩).2 = true ∧
    runProtocol frameStep false (renderLoop .GO2_DEVICE_GB 256 224 sampleInputs).1 =
      some false :=
  ⟨rfl, (frame_handshake_balanced .GO2_DEVICE_GB 256 224 ⟨sampleGamepad, false⟩ sampleInputs
    rfl).2.2.2.1⟩

/-- C6 as stated fails: in an iteration with a ready frame (GBA, 240x160) the copy of the
video buffer is made before the iteration's `wait_frame_end`, not after it. -/
theorem copy_precedes_frame_end :
    copyAfterFrameEnd false
      (renderIteration .GO2_DEVICE_GBA 240 160 ⟨sampleGamepad, true⟩).1 = false := by
  rfl

theorem renderIteration_copy (d : emu_device_t) (width height : Nat) (inp : LoopInput) :
    runProtocol copyStep false (renderIteration d width height inp).1 = some false := by
  by_cases h : inp.gamepad.buttons.f1 = 0
  · cases hr : inp.ready
    · simp [renderIteration_idle d width height inp h hr, runProtocol, copyStep]
    · exact renderIteration_ready_protocol copyStep d width height inp h hr false false rfl
        (fun _ _ _ _ => rfl) (fun _ _ _ _ _ => rfl) rfl
  · simp [renderIteration_break d width height inp h, runProtocol, copyStep]

/-- C6, amended. In an iteration with a ready frame the copy of the video frame buffer into
the source texture is made exactly once, after `wait_frame_start` has returned "ready" and
before that iteration's `wait_frame_end` is called; and over every run of the loop a copy
is made only inside such a start/end window (none in an iteration whose frame is not
ready). -/
theorem copy_inside_frame_window (d : emu_device_t) (width height : Nat) (inp : LoopInput)
    (inputs : List LoopInput) (hcont : (renderIteration d width height inp).2 = true)
    (hr : inp.ready = true) :
    (∃ before after, (renderIteration d width height inp).1 =
        before ++ [Event.waitFrameStart true, Event.glClear, Event.texSubImage width height,
          Event.waitFrameEnd] ++ after ∧
      (∀ e ∈ before ++ after, e.isCopy = false ∧ e.isFrameCall = false)) ∧
    runProtocol copyStep false (renderLoop d width height inputs).1 = some false := by
  have h : inp.gamepad.buttons.f1 = 0 := (renderIteration_continues_iff d width height inp).1 hcont
  refine ⟨⟨[Event.gamepadRead, Event.interrupt, Event.setKeys (keyMask inp.gamepad),
      Event.continue_], drawEvents d width height ++ [Event.swapBuffers, Event.surfaceLock,
      Event.presenterPost, Event.surfaceUnlock], ?_, ?_⟩,
    renderLoop_protocol copyStep d width height (renderIteration_copy d width height) inputs⟩
  · rw [renderIteration_ready d width height inp h hr]
    simp
  · intro e he
    simp only [List.mem_append, List.mem_cons, List.mem_singleton, List.not_mem_nil,
      or_false] at he
    rcases he with (he | he | he | he) | he | he | he | he | he
    any_goals (subst he; exact ⟨rfl, rfl⟩)
    rcases drawEvents_plain d width height e he with ⟨_, _, _, _, rfl⟩ | ⟨_, _, _, _, _, rfl⟩ <;>
      exact ⟨rfl, rfl⟩

/-- Witness for C6 (amended): an iteration with a ready frame, in a run of three. -/
theorem copy_inside_frame_window_witness :
    (renderIteration .GO2_DEVICE_GBA 240 160 ⟨sampleGamepad, true⟩).2 = true ∧
    (⟨sampleGamepad, true⟩ : LoopInput).ready = true ∧
    runProtocol copyStep false (renderLoop .GO2_DEVICE_GBA 240 160 sampleInputs).1 =
      some false :=
  ⟨rfl, rfl, (copy_inside_frame_window .GO2_DEVICE_GBA 240 160 ⟨sampleGamepad, true⟩
    sampleInputs rfl rfl).2⟩

/-! ## Interrupt/continue brackets -/

theorem renderIteration_bracket (d : emu_device_t) (width height : Nat) (inp : LoopInput) :
    runProtocol bracketStep false (renderIteration d width height inp).1 = some false := by
  by_cases h : inp.gamepad.buttons.f1 = 0
  · cases hr : inp.ready
    · simp [renderIteration_idle d width height inp h hr, runProtocol, bracketStep]
    · exact renderIteration_ready_protocol bracketStep d width height inp h hr false false rfl
        (fun _ _ _ _ => rfl) (fun _ _ _ _ _ => rfl) rfl
  · simp [renderIteration_break d width height inp h, runProtocol, bracketStep]

/-- The calls of an iteration that goes on: the gamepad read, the input bracket, and calls
that are neither bracket calls nor mutations. -/
theorem renderIteration_input_bracket (d : emu_device_t) (width height : Nat)
    (inp : LoopInput) (h : inp.gamepad.buttons.f1 = 0) :
    ∃ rest, (renderIteration d width height inp).1 =
        [Event.gamepadRead, Event.interrupt, Event.setKeys (keyMask inp.gamepad),
          Event.continue_] ++ rest ∧
      ∀ e ∈ rest, e.isBracketCall = false := by
  cases hr : inp.ready
  · refine ⟨[Event.waitFrameStart false, Event.waitFrameEnd, Event.usleep], ?_, ?_⟩
    · rw [renderIteration_idle d width height inp h hr]; rfl
    · intro e he
      simp only [List.mem_cons, List.mem_singleton, List.not_mem_nil, or_false] at he
      rcases he with he | he | he <;> subst he <;> rfl
  · refine ⟨[Event.waitFrameStart true, Event.glClear, Event.texSubImage width height,
      Event.waitFrameEnd] ++ drawEvents d width height ++ [Event.swapBuffers,
      Event.surfaceLock, Event.presenterPost, Event.surfaceUnlock], ?_, ?_⟩
    · rw [renderIteration_ready d width height inp h hr]; simp
    · intro e he
      simp only [List.mem_append, List.mem_cons, List.mem_singleton, List.not_mem_nil,
        or_false] at he
      rcases he with ((he | he | he | he) | he) | he | he | he | he
      any_goals (subst he; rfl)
      rcases drawEvents_plain d width height e he with
        ⟨_, _, _, _, rfl⟩ | ⟨_, _, _, _, _, rfl⟩ <;> rfl

/-- When the loop is left by its `break`, `end()` is its last call and is issued once. -/
theorem renderLoop_end_last (d : emu_device_t) (width height : Nat)
    (inputs : List LoopInput) (hdone : (renderLoop d width height inputs).2 = true) :
    ∃ before, (renderLoop d width height inputs).1 = before ++ [Event.threadEnd] ∧
      Event.threadEnd ∉ before := by
  induction inputs with
  | nil => simp [renderLoop] at hdone
  | cons inp rest ih =>
    by_cases h : inp.gamepad.buttons.f1 = 0
    · have hc := (renderIteration_continues_iff d width height inp).2 h
      simp only [renderLoop, hc, if_true] at hdone ⊢
      obtain ⟨before, hb, hnot⟩ := ih hdone
      obtain ⟨tail, ht, hplain⟩ := renderIteration_input_bracket d width height inp h
      refine ⟨(renderIteration d width height inp).1 ++ before, ?_, ?_⟩
      · rw [hb, List.append_assoc]
      · intro hmem
        rcases List.mem_append.1 hmem with hm | hm
        · rw [ht] at hm
          simp only [List.mem_append, List.mem_cons, List.mem_singleton, List.not_mem_nil,
            or_false, reduceCtorEq, false_or] at hm
          have := hplain _ hm
          simp [Event.isBracketCall] at this
        · exact hnot hm
    · refine ⟨[Event.gamepadRead], ?_, by simp⟩
      simp [renderLoop, renderIteration_break d width height inp h]

/-- The loop is left by its `break` as soon as an input has F1 held. -/
theorem renderLoop_terminates (d : emu_device_t) (width height : Nat)
    (inputs : List LoopInput) (hquit : ∃ inp ∈ inputs, inp.gamepad.buttons.f1 ≠ 0) :
    (renderLoop d width height inputs).2 = true := by
  induction inputs with
  | nil => simp at hquit
  | cons inp rest ih =>
    by_cases h : inp.gamepad.buttons.f1 = 0
    · have hc := (renderIteration_continues_iff d width height inp).2 h
      simp only [renderLoop, hc, if_true]
      apply ih
      obtain ⟨i, hi, hf⟩ := hquit
      rcases List.mem_cons.1 hi with rfl | hi
      · exact absurd h hf
      · exact ⟨i, hi, hf⟩
    · simp [renderLoop, renderIteration_break d width height inp h]

/-- What `LoadState` adds to the log: nothing, or the snapshot restore. -/
theorem LoadState_log {σ : Type} (ops : CoreOps σ) (libc : Libc) (path : CStr) (w : World σ) :
    ∃ ev, (LoadState ops libc path w).world.log = w.log ++ ev ∧
      (ev = [] ∨ ∃ blob, ev = [Event.loadStateNamed blob]) := by
  unfold LoadState
  cases fopenRb libc w.fs path with
  | none => exact ⟨[], by simp [Outcome.world], Or.inl rfl⟩
  | some content =>
    simp only
    split
    · exact ⟨[], by simp [Outcome.world], Or.inl rfl⟩
    · split
      · exact ⟨[], by simp [Outcome.world], Or.inl rfl⟩
      · split
        · exact ⟨[], by simp [Outcome.world], Or.inl rfl⟩
        · exact ⟨_, rfl, Or.inr ⟨_, rfl⟩⟩

/-- What `LoadSram` adds to the log: nothing, or the platform query and the memory restore. -/
theorem LoadSram_log {σ : Type} (ops : CoreOps σ) (libc : Libc) (path : CStr) (w : World σ) :
    ∃ ev, (LoadSram ops libc path w).world.log = w.log ++ ev ∧
      (ev = [] ∨ ∃ blob size wb, ev = [Event.platform, Event.savedataRestore blob size wb]) := by
  unfold LoadSram
  cases fopenRb libc w.fs path with
  | none => exact ⟨[], by simp [Outcome.world], Or.inl rfl⟩
  | some content =>
    simp only
    split
    · exact ⟨[], by simp [Outcome.world], Or.inl rfl⟩
    · split
      · exact ⟨[], by simp [Outcome.world], Or.inl rfl⟩
      · exact ⟨_, rfl, Or.inr ⟨_, _, _, rfl⟩⟩

/-- The log of a session from the start of the engine thread: the startup bracket is opened,
`LoadState` and `LoadSram` add their calls, and either one of them aborts or the bracket is
closed and the render loop runs. -/
theorem mainSession_log {σ : Type} (ops : CoreOps σ) (l1 l2 : Libc) (filename homedir : CStr)
    (d : emu_device_t) (width height : Nat) (inputs : List LoopInput) (w : World σ)
    (o : Outcome Bool σ)
    (hrun : mainSession ops l1 l2 filename homedir d width height inputs w = some o) :
    ∃ ev1 ev2 tail,
      o.world.log = w.log ++ ([Event.threadStart, Event.audioTaskCreate, Event.interrupt]
        ++ ev1 ++ ev2 ++ tail) ∧
      (ev1 = [] ∨ ∃ blob, ev1 = [Event.loadStateNamed blob]) ∧
      (ev2 = [] ∨ ∃ blob size wb, ev2 = [Event.platform, Event.savedataRestore blob size wb]) ∧
      ((∃ w2, o = .abort w2 ∧ tail = []) ∨
       (∃ w2, o = .ret (renderLoop d width height inputs).2 w2 ∧
          tail = Event.continue_ :: (renderLoop d width height inputs).1)) := by
  unfold mainSession at hrun
  cases hsp : savePathOf homedir filename with
  | none => simp [hsp] at hrun
  | some savePath =>
    cases hrp : sramPathOf homedir filename with
    | none => simp [hsp, hrp] at hrun
    | some sramPath =>
      simp only [hsp, hrp] at hrun
      obtain ⟨ev1, hl1, hev1⟩ := LoadState_log ops l1 savePath
        ((w.emit [Event.threadStart, Event.audioTaskCreate]).emit [Event.interrupt])
      cases hls : LoadState ops l1 savePath
          ((w.emit [Event.threadStart, Event.audioTaskCreate]).emit [Event.interrupt]) with
      | abort w1 =>
        rw [hls] at hrun hl1
        simp only [Option.some.injEq] at hrun
        subst hrun
        refine ⟨ev1, [], [], ?_, hev1, Or.inl rfl, Or.inl ⟨w1, rfl, rfl⟩⟩
        simp only [Outcome.world, World.emit] at hl1 ⊢
        rw [hl1]; simp
      | ret v w1 =>
        rw [hls] at hrun hl1
        simp only at hrun
        obtain ⟨ev2, hl2, hev2⟩ := LoadSram_log ops l2 sramPath w1
        cases hlr : LoadSram ops l2 sramPath w1 with
        | abort w2 =>
          rw [hlr] at hrun hl2
          simp only [Option.some.injEq] at hrun
          subst hrun
          refine ⟨ev1, ev2, [], ?_, hev1, hev2, Or.inl ⟨w2, rfl, rfl⟩⟩
          simp only [Outcome.world, World.emit] at hl1 hl2 ⊢
          rw [hl2, hl1]; simp
        | ret v2 w2 =>
          rw [hlr] at hrun hl2
          simp only [Option.some.injEq] at hrun
          subst hrun
          refine ⟨ev1, ev2, _, ?_, hev1, hev2, Or.inr ⟨_, rfl, rfl⟩⟩
          simp only [Outcome.world, World.emit] at hl1 hl2 ⊢
          rw [hl2, hl1]; simp

theorem startup_bracket (ev1 ev2 : List Event)
    (h1 : ev1 = [] ∨ ∃ blob, ev1 = [Event.loadStateNamed blob])
    (h2 : ev2 = [] ∨ ∃ blob size wb, ev2 = [Event.platform, Event.savedataRestore blob size wb]) :
    runProtocol bracketStep false
      ([Event.threadStart, Event.audioTaskCreate, Event.interrupt] ++ ev1 ++ ev2) =
        some true ∧
    Event.threadEnd ∉ [Event.threadStart, Event.audioTaskCreate, Event.interrupt] ++ ev1 ++ ev2
      := by
  rcases h1 with rfl | ⟨b1, rfl⟩ <;> rcases h2 with rfl | ⟨b2, n2, wb2, rfl⟩ <;>
    exact ⟨rfl, by simp⟩

/-- C7. Interrupt/continue bracket discipline: in every execution of `main` from the start
of the engine thread, the calls so far obey the bracket protocol (interrupt and continue
alternate starting with interrupt, never nested; set-input-mask, snapshot restore and
memory restore occur only inside a bracket; `end()` is issued only with no bracket open);
an execution that does not abort ends with every bracket closed, and when the loop was left
by the terminating input, `end()` is the last call and the only `end()`; the loop is left
as soon as an input has the terminating button held; an iteration that goes on consists of
the input read, the bracket `interrupt, setKeys, continue` and then calls that are neither
bracket calls nor mutations; the terminating iteration consists of the input read and
`end()` alone. -/
theorem bracket_discipline {σ : Type} (ops : CoreOps σ) (l1 l2 : Libc)
    (filename homedir : CStr) (d : emu_device_t) (width height : Nat)
    (inputs : List LoopInput) (w : World σ) (o : Outcome Bool σ)
    (hrun : mainSession ops l1 l2 filename homedir d width height inputs w = some o) :
    (∃ trace, o.world.log = w.log ++ trace ∧
      (runProtocol bracketStep false trace).isSome = true ∧
      (∀ b w2, o = .ret b w2 → runProtocol bracketStep false trace = some false) ∧
      (∀ w2, o = .ret true w2 →
        ∃ before, trace = before ++ [Event.threadEnd] ∧ Event.threadEnd ∉ before)) ∧
    ((∃ inp ∈ inputs, inp.gamepad.buttons.f1 ≠ 0) → ∀ w2, o ≠ .ret false w2) ∧
    (∀ inp : LoopInput, inp.gamepad.buttons.f1 = 0 →
      ∃ rest, (renderIteration d width height inp).1 =
          [Event.gamepadRead, Event.interrupt, Event.setKeys (keyMask inp.gamepad),
            Event.continue_] ++ rest ∧
        ∀ e ∈ rest, e.isBracketCall = false) ∧
    (∀ inp : LoopInput, inp.gamepad.buttons.f1 ≠ 0 →
      renderIteration d width height inp = ([Event.gamepadRead, Event.threadEnd], false)) := by
  obtain ⟨ev1, ev2, tail, hlog, h1, h2, hout⟩ :=
    mainSession_log ops l1 l2 filename homedir d width height inputs w o hrun
  obtain ⟨hstart, hnoend⟩ := startup_bracket ev1 ev2 h1 h2
  have hloop := renderLoop_protocol bracketStep d width height
    (renderIteration_bracket d width height) inputs
  refine ⟨⟨_, hlog, ?_, ?_, ?_⟩, ?_, renderIteration_input_bracket d width height,
    renderIteration_break d width height⟩
  · rcases hout with ⟨w2, -, rfl⟩ | ⟨w2, -, rfl⟩
    · rw [runProtocol_append, hstart]; rfl
    · rw [runProtocol_append, hstart]
      simp [runProtocol, bracketStep, hloop]
  · intro b w2 ho
    rcases hout with ⟨w3, ho3, -⟩ | ⟨w3, -, rfl⟩
    · rw [ho3] at ho; cases ho
    · rw [runProtocol_append, hstart]
      simp [runProtocol, bracketStep, hloop]
  · intro w2 ho
    rcases hout with ⟨w3, ho3, -⟩ | ⟨w3, ho3, rfl⟩
    · rw [ho3] at ho; cases ho
    · rw [ho3] at ho
      have hdone : (renderLoop d width height inputs).2 = true := by
        injection ho with hb _
      obtain ⟨before, hb, hnot⟩ := renderLoop_end_last d width height inputs hdone
      refine ⟨[Event.threadStart, Event.audioTaskCreate, Event.interrupt] ++ ev1 ++ ev2
        ++ Event.continue_ :: before, ?_, ?_⟩
      · rw [hb]; simp
      · intro hmem
        rcases List.mem_append.1 hmem with hm | hm
        · exact hnoend hm
        · rcases List.mem_cons.1 hm with hm | hm
          · cases hm
          · exact hnot hm
  · intro hquit w2 ho
    have hdone := renderLoop_terminates d width height inputs hquit
    rcases hout with ⟨w3, ho3, -⟩ | ⟨w3, ho3, -⟩
    · rw [ho3] at ho; cases ho
    · rw [ho3, hdone] at ho
      injection ho with hb _
      cases hb

/-- Witness for C7: a session with no save files that renders one frame, skips one and is
ended by F1. -/
theorem bracket_discipline_witness :
    ∃ o, mainSession sampleOps sampleLibc sampleLibc "/roms/game.gba".toList
        "/home/odroid".toList .GO2_DEVICE_GBA 240 160 sampleInputs sampleWorld = some o ∧
      ∃ trace, o.world.log = sampleWorld.log ++ trace ∧
        ∃ before, trace = before ++ [Event.threadEnd] ∧ Event.threadEnd ∉ before :=
  ⟨.ret true (sampleWorld.emit ([Event.threadStart, Event.audioTaskCreate, Event.interrupt,
      Event.continue_] ++ (renderLoop .GO2_DEVICE_GBA 240 160 sampleInputs).1)), rfl,
    let h := (bracket_discipline sampleOps sampleLibc sampleLibc "/roms/game.gba".toList
      "/home/odroid".toList .GO2_DEVICE_GBA 240 160 sampleInputs sampleWorld _ rfl).1
    ⟨h.choose, h.choose_spec.1, h.choose_spec.2.2.2 _ rfl⟩⟩

/-! ## Audio pump -/

theorem pumpIteration_lock (inp : PumpInput) :
    runProtocol lockStep false (pumpIteration inp) = some false := by
  unfold pumpIteration
  split <;> rfl

/-- C8. Audio pump drain threshold and lock discipline: the threshold is 44100 / 60 = 735;
every iteration takes the audio lock once, then refreshes the rates of channel 0 and of
channel 1, then asks for the available count, before any read; it reads (both channels,
the same count, then submits that count and acknowledges to the producer) iff at least 735
samples are available, and otherwise only unlocks and yields; in both branches the lock is
released exactly once, and over every run of the pump the lock is taken only when free,
released only when held, and never held at a yield or at the end of an iteration. -/
theorem audio_pump_discipline (inp : PumpInput) (inputs : List (Bool × PumpInput)) :
    SOUND_FREQUENCY / 60 = 735 ∧
    (∃ tail, pumpIteration inp =
        [AudioEvent.lockAudio, AudioEvent.setRates 0 inp.frequency0 44100,
          AudioEvent.setRates 1 inp.frequency1 44100, AudioEvent.samplesAvail 0] ++ tail ∧
      tail = if 735 ≤ inp.available then
          [AudioEvent.readSamples 0 0 inp.available, AudioEvent.readSamples 1 1 inp.available,
            AudioEvent.submit inp.available, AudioEvent.consumeAudio]
        else [AudioEvent.unlockAudio, AudioEvent.usleep]) ∧
    ((∃ e ∈ pumpIteration inp, e.isRead = true) ↔ 735 ≤ inp.available) ∧
    ((∃ n, AudioEvent.submit n ∈ pumpIteration inp) ↔ 735 ≤ inp.available) ∧
    (pumpIteration inp).count AudioEvent.lockAudio = 1 ∧
    ((pumpIteration inp).filter AudioEvent.isRelease).length = 1 ∧
    runProtocol lockStep false (pumpIteration inp) = some false ∧
    runProtocol lockStep false (audio_task inputs) = some false := by
  have hthr : SOUND_FREQUENCY / 60 = 735 := by decide
  refine ⟨hthr, ?_, ?_, ?_, ?_, ?_, pumpIteration_lock inp, ?_⟩
  · refine ⟨_, ?_, rfl⟩
    unfold pumpIteration
    rw [hthr]
    by_cases h : 735 ≤ inp.available
    · simp [h, SOUND_FREQUENCY]
    · simp [h, SOUND_FREQUENCY]
  · unfold pumpIteration
    rw [hthr]
    by_cases h : 735 ≤ inp.available
    · simp [h, AudioEvent.isRead]
    · simp [h, AudioEvent.isRead]
  · unfold pumpIteration
    rw [hthr]
    by_cases h : 735 ≤ inp.available
    · simp [h]
    · simp [h]
  · unfold pumpIteration
    rw [hthr]
    by_cases h : 735 ≤ inp.available
    · simp [h, List.count_cons]
    · simp [h, List.count_cons]
  · unfold pumpIteration
    rw [hthr]
    by_cases h : 735 ≤ inp.available
    · simp [h, List.filter, AudioEvent.isRelease]
    · simp [h, List.filter, AudioEvent.isRelease]
  · induction inputs with
    | nil => rfl
    | cons x rest ih =>
      obtain ⟨running, i⟩ := x
      cases running
      · simp [audio_task, runProtocol]
      · simp only [audio_task, if_true, runProtocol_append, pumpIteration_lock i,
          Option.some_bind]
        exact ih

/-! ## Display geometry -/

/-- The destination rectangle of every variant the loop draws lies on the 480x320 display;
for GB and GBC it is the 160x144 region at twice its size, centred. -/
theorem drawParams_insideDisplay (d : emu_device_t) (r : DestRect)
    (h : drawParams d = some r) :
    r.insideDisplay ∧
    ((d = .GO2_DEVICE_GB ∨ d = .GO2_DEVICE_GBC) →
      r.w = 2 * 160 ∧ r.h = 2 * 144 ∧ 2 * r.x + r.w = 480 ∧ 2 * r.y + r.h = 320) := by
  cases d <;> simp [drawParams] at h <;> subst h <;>
    simp [DestRect.insideDisplay]

/-- The crop rectangle of the Game Boy variants (GB, GBC, SGB) lies inside their 256x224
frame. -/
theorem cropParams_gameboy_insideFrame (d : emu_device_t) (width height : Nat) (c : CropRect)
    (hd : d ≠ .GO2_DEVICE_GBA) (h : cropParams d width height = some c) :
    c.insideFrame (frameSize d width height).1 (frameSize d width height).2 := by
  cases d <;> simp [cropParams] at h hd <;> subst h <;>
    simp [CropRect.insideFrame, frameSize]

/-- C9 (the code at the failing input). For the GBA variant with the 240x160 frame the crop
rectangle is (0, 0, 240, -160): its width is positive and its height negative, but
`cy + ch = -160` is below 0, so the region it selects (rows -160 to 0) lies outside the
frame, while the GB, GBC and SGB entries put `cy` at the lower edge of their region. -/
theorem cropParams_GBA_outside_frame :
    cropParams .GO2_DEVICE_GBA 240 160 = some ⟨0, 0, 240, -160⟩ ∧
    drawParams .GO2_DEVICE_GBA = some ⟨0, 0, 0, 480, 320⟩ ∧
    frameSize .GO2_DEVICE_GBA 240 160 = (240, 160) ∧
    (⟨0, 0, 240, -160⟩ : CropRect).cy + (⟨0, 0, 240, -160⟩ : CropRect).ch = -160 ∧
    ¬ (⟨0, 0, 240, -160⟩ : CropRect).insideFrame 240 160 := by
  refine ⟨by decide, rfl, rfl, by decide, ?_⟩
  simp [CropRect.insideFrame]

/-- The GBA crop rectangle selects no region inside the frame for any frame height between
1 and 2^31 - 1: `cy + ch` is `-height`. -/
theorem cropParams_GBA_general (width height : Nat) (hh : 0 < height) (hh2 : height < 2 ^ 31) :
    ∃ c, cropParams .GO2_DEVICE_GBA width height = some c ∧ c.cy + c.ch = -(height : Int) ∧
      ¬ c.insideFrame width height := by
  have hmod : height % 2 ^ 32 = height := Nat.mod_eq_of_lt (by omega)
  have h1 : (2 ^ 32 - height) % 2 ^ 32 = 2 ^ 32 - height := Nat.mod_eq_of_lt (by omega)
  have hch : toGLint (negUnsigned height) = -(height : Int) := by
    unfold toGLint negUnsigned
    rw [hmod, h1, h1, if_neg (by omega)]
    omega
  refine ⟨_, rfl, ?_, ?_⟩
  · simp [hch]
  · simp only [CropRect.insideFrame, hch]
    omega

/-! ## Path derivation -/

theorem strrchr_eq_none_iff (s : CStr) (c : Char) : strrchr s c = none ↔ c ∉ s := by
  induction s with
  | nil => simp [strrchr]
  | cons x xs ih =>
    simp only [strrchr, List.mem_cons, not_or]
    cases h : strrchr xs c with
    | some r =>
      have : ¬ (c ∉ xs) := fun hn => by rw [ih.2 hn] at h; cases h
      simp [this]
    | none =>
      have hn : c ∉ xs := ih.1 h
      by_cases hx : x = c
      · simp [hx]
      · simp [hx, hn, Ne.symm hx]

/-- What `strrchr` returns points at the last occurrence of the character. -/
theorem strrchr_eq_some (s : CStr) (c : Char) (r : CStr) (h : strrchr s c = some r) :
    ∃ before after, s = before ++ c :: after ∧ r = c :: after ∧ c ∉ after := by
  induction s generalizing r with
  | nil => simp [strrchr] at h
  | cons x xs ih =>
    simp only [strrchr] at h
    cases hxs : strrchr xs c with
    | some r2 =>
      rw [hxs] at h
      simp only [Option.some.injEq] at h
      subst h
      obtain ⟨before, after, hsplit, hr, hnot⟩ := ih r2 hxs
      exact ⟨x :: before, after, by rw [hsplit]; rfl, hr, hnot⟩
    | none =>
      rw [hxs] at h
      by_cases hx : x = c
      · simp only [hx, if_true, Option.some.injEq] at h
        subst h
        exact ⟨[], xs, by rw [hx]; rfl, rfl, (strrchr_eq_none_iff xs c).1 hxs⟩
      · simp [hx] at h

theorem strrchr_append_last (before after : CStr) (c : Char) (h : c ∉ after) :
    strrchr (before ++ c :: after) c = some (c :: after) := by
  induction before with
  | nil => simp [strrchr, (strrchr_eq_none_iff after c).2 h]
  | cons x xs ih => simp [strrchr, ih]

theorem FileNameFromPath_no_slash (p : CStr) : '/' ∉ FileNameFromPath p := by
  unfold FileNameFromPath
  cases h : strrchr p '/' with
  | none => exact (strrchr_eq_none_iff p '/').1 h
  | some r =>
    obtain ⟨before, after, -, hr, hnot⟩ := strrchr_eq_some p '/' r h
    simpa [hr] using hnot

theorem FileNameFromPath_split (p : CStr) (h : '/' ∈ p) :
    ∃ before, p = before ++ '/' :: FileNameFromPath p := by
  unfold FileNameFromPath
  cases hs : strrchr p '/' with
  | none => exact absurd h ((strrchr_eq_none_iff p '/').1 hs)
  | some r =>
    obtain ⟨before, after, hsplit, hr, -⟩ := strrchr_eq_some p '/' r hs
    exact ⟨before, by simp [hr, hsplit]⟩

theorem FileNameFromPath_of_dir (dir name : CStr) (hdir : dir.getLast? = some '/')
    (hname : '/' ∉ name) : FileNameFromPath (dir ++ name) = name := by
  obtain ⟨before, rfl⟩ : ∃ before, dir = before ++ ['/'] := by
    rcases List.eq_nil_or_concat dir with rfl | ⟨l, b, rfl⟩
    · simp at hdir
    · rw [List.concat_eq_append, List.getLast?_append] at hdir
      have hb : b = '/' := by simpa [Option.or] using hdir
      exact ⟨l, by simp [hb]⟩
  unfold FileNameFromPath
  rw [List.append_assoc, List.singleton_append, strrchr_append_last before name '/' hname]
  rfl

theorem PathCombine_eq (d f : CStr) (hd : d ≠ []) :
    PathCombine d f =
      some (if d.getLast? = some '/' then d ++ f else d ++ "/".toList ++ f) := by
  unfold PathCombine
  cases hl : d.getLast? with
  | none => exact absurd (List.getLast?_eq_none_iff.1 hl) hd
  | some last =>
    by_cases hs : last = '/'
    · simp [hs]
    · simp [hs]

/-- C10. Persistence path derivation: for every content path `p` and non-empty directory
`d`, the snapshot path is `PathCombine(d, base ++ ".sav")` and the memory path is
`PathCombine(d, base ++ ".srm")`, where `base = FileNameFromPath(p)` contains no slash, is
all of `p` when `p` has none and is what follows the last slash of `p` otherwise;
`PathCombine(d, f)` is `d ++ f` when `d` ends in a slash and `d ++ "/" ++ f` otherwise; the
two paths differ, lie in the same directory (one prefix ending in a slash, followed by the
two slash-free file names), and depend on `p` only through its base name. -/
theorem persistence_paths (p d : CStr) (hd : d ≠ []) :
    savePathOf d p = PathCombine d (FileNameFromPath p ++ ".sav".toList) ∧
    sramPathOf d p = PathCombine d (FileNameFromPath p ++ ".srm".toList) ∧
    '/' ∉ FileNameFromPath p ∧
    ('/' ∉ p → FileNameFromPath p = p) ∧
    ('/' ∈ p → ∃ before, p = before ++ '/' :: FileNameFromPath p) ∧
    (∀ f, PathCombine d f =
      some (if d.getLast? = some '/' then d ++ f else d ++ "/".toList ++ f)) ∧
    savePathOf d p ≠ sramPathOf d p ∧
    (∃ dir, dir.getLast? = some '/' ∧
      savePathOf d p = some (dir ++ (FileNameFromPath p ++ ".sav".toList)) ∧
      sramPathOf d p = some (dir ++ (FileNameFromPath p ++ ".srm".toList)) ∧
      FileNameFromPath (dir ++ (FileNameFromPath p ++ ".sav".toList)) =
        FileNameFromPath p ++ ".sav".toList ∧
      FileNameFromPath (dir ++ (FileNameFromPath p ++ ".srm".toList)) =
        FileNameFromPath p ++ ".srm".toList) ∧
    (∀ p2, FileNameFromPath p2 = FileNameFromPath p →
      savePathOf d p2 = savePathOf d p ∧ sramPathOf d p2 = sramPathOf d p) := by
  have hbase := FileNameFromPath_no_slash p
  refine ⟨rfl, rfl, hbase, ?_, FileNameFromPath_split p, fun f => PathCombine_eq d f hd,
    ?_, ?_, ?_⟩
  · intro h
    simp [FileNameFromPath, (strrchr_eq_none_iff p '/').2 h]
  · simp only [savePathOf, sramPathOf, saveNameOf, sramNameOf, PathCombine_eq _ _ hd]
    by_cases hl : d.getLast? = some '/'
    · simp [hl]
    · simp [hl]
  · have hsav : '/' ∉ FileNameFromPath p ++ ".sav".toList := by
      simp [hbase]
    have hsrm : '/' ∉ FileNameFromPath p ++ ".srm".toList := by
      simp [hbase]
    by_cases hl : d.getLast? = some '/'
    · refine ⟨d, hl, ?_, ?_, FileNameFromPath_of_dir d _ hl hsav,
        FileNameFromPath_of_dir d _ hl hsrm⟩
      · simp [savePathOf, saveNameOf, PathCombine_eq _ _ hd, hl]
      · simp [sramPathOf, sramNameOf, PathCombine_eq _ _ hd, hl]
    · have hl2 : (d ++ "/".toList).getLast? = some '/' := by simp
      refine ⟨d ++ "/".toList, hl2, ?_, ?_, FileNameFromPath_of_dir _ _ hl2 hsav,
        FileNameFromPath_of_dir _ _ hl2 hsrm⟩
      · simp [savePathOf, saveNameOf, PathCombine_eq _ _ hd, hl]
      · simp [sramPathOf, sramNameOf, PathCombine_eq _ _ hd, hl]
  · intro p2 h2
    simp [savePathOf, sramPathOf, saveNameOf, sramNameOf, h2]

/-- Witness for C10: the content `/roms/gba/game.gba` with the directory `/home/odroid`. -/
theorem persistence_paths_witness :
    "/home/odroid".toList ≠ [] ∧
    savePathOf "/home/odroid".toList "/roms/gba/game.gba".toList =
      some "/home/odroid/game.gba.sav".toList ∧
    sramPathOf "/home/odroid".toList "/roms/gba/game.gba".toList =
      some "/home/odroid/game.gba.srm".toList ∧
    savePathOf "/home/odroid".toList "/roms/gba/game.gba".toList ≠
      sramPathOf "/home/odroid".toList "/roms/gba/game.gba".toList :=
  ⟨by decide, by decide, by decide,
   (persistence_paths "/roms/gba/game.gba".toList "/home/odroid".toList (by decide)).2.2.2.2.2.2.1⟩

/-! ## Entry of `main` -/

/-- C11 (the code at the failing input). With no positional argument (`argc < 2`) `main`
prints `missing filename.` and returns at once, having made no startup call (no display,
presenter, context or core call); but the value it returns is `false`, that is exit
status 0, the same status as the `return 0;` of a complete run, not a non-zero status. -/
theorem mainEntry_missing_argument (argc : Int) (coreFound : Bool) (h : argc < 2) :
    mainEntry argc coreFound =
      ([StartupCall.printf "missing filename.\n"], EntryResult.exited 0) ∧
    (∀ status, (mainEntry argc coreFound).2 = EntryResult.exited status →
      status = mainSuccessStatus ∧ ¬ status ≠ 0) := by
  have he : mainEntry argc coreFound =
      ([StartupCall.printf "missing filename.\n"], EntryResult.exited 0) := by
    simp [mainEntry, h, C_false]
  refine ⟨he, ?_⟩
  intro status hs
  rw [he] at hs
  injection hs with hs
  simp [← hs, mainSuccessStatus]

/-- Witness for C11: the program started with no argument (`argc = 1`). -/
theorem mainEntry_missing_argument_witness :
    (1 : Int) < 2 ∧
    mainEntry 1 true = ([StartupCall.printf "missing filename.\n"], EntryResult.exited 0) :=
  ⟨by decide, (mainEntry_missing_argument 1 true (by decide)).1⟩

end Odroid
